import Mathlib

/-!
Shallow embedding of `fastdupes.py` (Find Dupes Fast, v0.3.6).

Files are modelled as finite byte lists (`List Nat`), the filesystem as an
association list from path strings to file records.  Python `dict`s are
modelled as insertion-ordered association lists and Python `set`s as
duplicate-free lists built by add-if-absent, so that every definition is
executable.  SHA1 (an external `hashlib` call) is idealised as an injective
digest: the model digest of a read is the list of bytes consumed, which is
exactly the information the digest is a function of.  OS errors (`OSError`,
`IOError`) are modelled with `Except Unit` and can arise at `stat` time, at
`open` time, or during a later `read`: a file record carries an optional
byte position `readErrAt` from which reads raise, so a file can open
successfully and still fail mid-read.  The total functions
(`compareChunks`, `groupByContent`, `find_dupes`) describe executions in
which every performed read succeeds; the fallible layer (`readChunkE`,
`compareChunksE`, `groupByContentE`, `find_dupesE`) additionally propagates
read errors exactly where the source has no `try`/`except` — in particular
an uncaught read error inside `compareChunks` aborts the whole run — and
`find_dupesE_eq_of_noReadErr` proves the two layers agree whenever no read
fails.
-/

namespace Fastdupes

/-- `CHUNK_SIZE = 2 ** 16` (fastdupes.py line 60): size for chunked reads. -/
def CHUNK_SIZE : Nat := 2 ^ 16

/-- `HEAD_SIZE = 2 ** 14` (fastdupes.py line 61): byte limit for header hashes. -/
def HEAD_SIZE : Nat := 2 ^ 14

/-- `DEFAULTS['min_size'] = 25` (fastdupes.py line 58), used by optparse in
`main` and as the default of `sizeClassifier`'s own `min_size` parameter. -/
def DEFAULTS_min_size : Nat := 25

/-- One file of the modelled filesystem: its contents, whether the path is a
symlink, whether `stat` succeeds, whether `open` succeeds (`false` models a
raised `OSError`/`IOError` at that call), and `readErrAt`: when `some k`,
any `read` on an open handle that would deliver a byte at index `≥ k`
raises (a bad region starting at byte `k`), so a file can open successfully
and still fail during a later read. -/
structure FileInfo where
  bytes : List Nat
  isLink : Bool
  statOk : Bool
  openOk : Bool
  readErrAt : Option Nat
deriving DecidableEq, Repr

/-- The filesystem: an association list from paths to files.  A path that is
absent behaves like a vanished file (stat and open both raise). -/
structure FS where
  files : List (String × FileInfo)
deriving DecidableEq, Repr

def FS.lookup (fs : FS) (p : String) : Option FileInfo :=
  (fs.files.find? (fun e => e.1 = p)).map (fun e => e.2)

/-- `os.lstat(path)` as used by `sizeClassifier`: returns (is-symlink, size)
or raises. -/
def FS.statPath (fs : FS) (p : String) : Except Unit (Bool × Nat) :=
  match fs.lookup p with
  | none => Except.error ()
  | some fi => if fi.statOk then Except.ok (fi.isLink, fi.bytes.length) else Except.error ()

/-- `open(path, 'rb')` alone: yields the byte contents that successful
chunked reads on the resulting handle will deliver, or raises at open time.
Whether a later `read` on the handle raises is a separate question,
governed by the file's `readErrAt` (see `FS.readErrAt`, `readChunkE` and
`hashClassifierE`): opening successfully does not guarantee readability. -/
def FS.openPath (fs : FS) (p : String) : Except Unit (List Nat) :=
  match fs.lookup p with
  | none => Except.error ()
  | some fi => if fi.openOk then Except.ok fi.bytes else Except.error ()

/-- The read-failure position of the (open) file at `p`: `some k` means any
read delivering a byte at index `≥ k` raises.  Absent paths have no open
handles, so the value is irrelevant there; `none` is returned. -/
def FS.readErrAt (fs : FS) (p : String) : Option Nat :=
  match fs.lookup p with
  | none => none
  | some fi => fi.readErrAt

/-- The read loop of `hashFile` (fastdupes.py lines 124-128): read
`cs`-byte blocks, stopping at an empty read, and breaking once the running
`read` counter (which increments by `cs` per block) reaches a nonzero
`limit`.  The returned list is the concatenation of the blocks fed to
`fhash.update`, i.e. the exact byte sequence the SHA1 digest is computed
over. -/
def hashLoop (cs limit : Nat) (rest : List Nat) (read : Nat) : List Nat :=
  if h : cs = 0 ∨ rest = [] then []
  else if 0 < limit ∧ limit ≤ read + cs then rest.take cs
  else rest.take cs ++ hashLoop cs limit (rest.drop cs) (read + cs)
termination_by rest.length
decreasing_by
  push_neg at h
  obtain ⟨hcs, hrest⟩ := h
  have h1 : 0 < rest.length := List.length_pos.mpr hrest
  simp only [List.length_drop]
  omega

/-- `hashFile(handle, want_hex, limit, chunk_size)` (fastdupes.py lines
93-130), idealised to return the byte sequence consumed (the SHA1 digest is
an injective function of it).  `limit = 0` models Python `limit=None` /
`limit=0`, both falsy.  Python's defaults are `limit=None`,
`chunk_size=CHUNK_SIZE`. -/
def hashFile (file : List Nat) (limit : Nat) (chunk_size : Nat) : List Nat :=
  let cs := if limit ≠ 0 then min chunk_size limit else chunk_size
  hashLoop cs limit file 0

/-- Keys of the bucket maps produced by the pipeline stages: the synthetic
seed key `''`, a file size, a (modelled) digest, or the representative path
used by `groupByContent`. -/
inductive Key where
  | root : Key
  | size : Nat → Key
  | hash : List Nat → Key
  | rep : String → Key
deriving DecidableEq, Repr

/-- A Python dict mapping classifier keys to groups of paths, modelled as an
insertion-ordered association list. -/
abbrev BucketMap := List (Key × List String)

/-- `set.add`: append the path unless already present. -/
def addPath (g : List String) (p : String) : List String :=
  if p ∈ g then g else g ++ [p]

/-- `set.update`: add each path of `ps` in turn. -/
def setUpdate (g : List String) (ps : List String) : List String :=
  ps.foldl addPath g

/-- `groups.setdefault(key, set()).add(path)` on an association-list dict. -/
def dictAdd (m : BucketMap) (k : Key) (p : String) : BucketMap :=
  if m.any (fun kg => kg.1 = k) then
    m.map (fun kg => if kg.1 = k then (kg.1, addPath kg.2 p) else kg)
  else m ++ [(k, [p])]

/-- `groups.setdefault(key, set()).update(group)` on an association-list
dict. -/
def dictUpdate (m : BucketMap) (k : Key) (ps : List String) : BucketMap :=
  if m.any (fun kg => kg.1 = k) then
    m.map (fun kg => if kg.1 = k then (kg.1, setUpdate kg.2 ps) else kg)
  else m ++ [(k, setUpdate [] ps)]

/-- `d[k] = v` on an association-list dict: replace in place or append. -/
def dictAssign (m : BucketMap) (k : Key) (v : List String) : BucketMap :=
  if m.any (fun kg => kg.1 = k) then
    m.map (fun kg => if kg.1 = k then (kg.1, v) else kg)
  else m ++ [(k, v)]

/-- The `groupify` decorator (fastdupes.py lines 273-301): turn a per-path
classifier into a per-list grouping function.  A classifier returning
`Except.error` models a raised `OSError`/`IOError`: the path is logged and
skipped.  A classifier returning `Except.ok none` models `key is None`: the
path is silently excluded. -/
def groupifyStep (f : String → Except Unit (Option Key)) (groups : BucketMap)
    (path : String) : BucketMap :=
  match f path with
  | Except.ok (some key) => dictAdd groups key path
  | Except.ok none => groups
  | Except.error _ => groups

def groupify (f : String → Except Unit (Option Key)) (paths : List String) : BucketMap :=
  paths.foldl (groupifyStep f) []

/-- `sizeClassifier` (fastdupes.py lines 303-325): key a file by its on-disk
size, skipping symlinks and files below `min_size`.  Python's default
`min_size` is `DEFAULTS['min_size'] = 25`. -/
def sizeClassifier (fs : FS) (min_size : Nat) (path : String) : Except Unit (Option Key) :=
  match fs.statPath path with
  | Except.error e => Except.error e
  | Except.ok (isLink, size) =>
    if isLink then Except.ok none
    else if size < min_size then Except.ok none
    else Except.ok (some (Key.size size))

/-- `hashClassifier` (fastdupes.py lines 327-339): key a file by the digest
of its first `limit` bytes.  Python's default `limit` is `HEAD_SIZE`, which
also applies when `find_dupes` omits the argument at its final stage. -/
def hashClassifier (fs : FS) (limit : Nat) (path : String) : Except Unit (Option Key) :=
  match fs.openPath path with
  | Except.error e => Except.error e
  | Except.ok bytes => Except.ok (some (Key.hash (hashFile bytes limit CHUNK_SIZE)))

/-- One record of `compareChunks`'s working lists: the Python tuple
`(path, fh, chunk)`.  The open handle `fh` is modelled by the unread
remainder of the file. -/
structure Handle where
  path : String
  rest : List Nat
  chunk : List Nat
deriving DecidableEq, Repr

/-- A successful `fh.read(chunk_size)` on a handle record: the chunk
becomes the next `cs` bytes and the handle advances past them.  This is the
success case only; the read call itself can raise, which `readChunkE`
models — and which `compareChunks`'s caller never catches. -/
def readChunk (cs : Nat) (h : Handle) : Handle :=
  { path := h.path, rest := h.rest.drop cs, chunk := h.rest.take cs }

/-- The `while chunks:` partition-refinement loop of `compareChunks`
(fastdupes.py lines 412-427): split the records into runs with
pivot-equal chunks; a run is finished (second component; Python closes its
handles and keeps only the paths) when it is a singleton or its pivot chunk
is empty, otherwise it is carried forward (first component). -/
def partitionChunks (chunks : List Handle) : List (List Handle) × List (List Handle) :=
  match chunks with
  | [] => ([], [])
  | c :: rest =>
    let same := c :: rest.filter (fun x => decide (x.chunk = c.chunk))
    let non := rest.filter (fun x => !(decide (x.chunk = c.chunk)))
    let md := partitionChunks non
    if same.length = 1 ∨ c.chunk = [] then (md.1, same :: md.2)
    else (same :: md.1, md.2)
termination_by chunks.length
decreasing_by
  have := List.length_filter_le (fun x => !(decide (x.chunk = c.chunk))) rest
  simp only [List.length_cons]
  omega

/-- `compareChunks(handles, chunk_size)` (fastdupes.py lines 388-429): read
the next chunk from every handle, then partition by chunk equality.
Finished groups are returned as path lists, matching the Python return
shape. -/
def compareChunks (handles : List Handle) (chunk_size : Nat) :
    List (List Handle) × List (List String) :=
  let md := partitionChunks (handles.map (readChunk chunk_size))
  (md.1, md.2.map (fun g => g.map Handle.path))

def handleMeasure (h : Handle) : Nat := h.rest.length + 1

def groupMeasure (g : List Handle) : Nat := 1 + (g.map handleMeasure).sum

def queueMeasure (q : List (List Handle)) : Nat := (q.map groupMeasure).sum

/-- The `while handles:` loop of `groupByContent` (fastdupes.py lines
377-383), with explicit fuel: pop the front group, run `compareChunks`,
append the carried-forward groups to the queue and the finished groups to
the results.  `none` means the fuel ran out with work remaining. -/
def cmpLoop : Nat → List (List Handle) → List (List String) → Option (List (List String))
  | _, [], results => some results
  | 0, _ :: _, _ => none
  | fuel + 1, g :: queue, results =>
    let md := compareChunks g CHUNK_SIZE
    cmpLoop fuel (queue ++ md.1) (results ++ md.2)

/-- The `hList` construction of `groupByContent` (fastdupes.py lines
369-375): open every path, silently skipping (with a log message) paths
that raise; each opened file starts with the initial empty chunk `''`. -/
def openHandles (fs : FS) (paths : List String) : List Handle :=
  paths.filterMap
    (fun p =>
      match fs.openPath p with
      | Except.ok bytes => some { path := p, rest := bytes, chunk := [] : Handle }
      | Except.error _ => none)

/-- The accumulated `results` of `groupByContent`'s `while handles:` loop.
The fuel `queueMeasure [openHandles fs paths]` always suffices (see
`cmpLoop_isSome_of_fuel`), so the `getD` default is never taken. -/
def contentResults (fs : FS) (paths : List String) : List (List String) :=
  (cmpLoop (queueMeasure [openHandles fs paths]) [openHandles fs paths] []).getD []

/-- `groupByContent(paths)` (fastdupes.py lines 341-386): compare all the
paths' contents chunk-by-chunk in parallel and return a dict keyed by each
finished group's first path (`dict((x[0], x) for x in results)`). -/
def groupByContent (fs : FS) (paths : List String) : BucketMap :=
  (contentResults fs paths).foldl (fun m g => dictAssign m (Key.rep (g.headD "")) g) []

/-- `groupBy(groups_in, classifier, fun_desc, keep_uniques, ...)`
(fastdupes.py lines 225-271): apply the classifier to every input group,
merging its buckets into one fresh dict by `setdefault(...).update(...)`,
then, unless `keep_uniques`, drop buckets with fewer than two members. -/
def groupBy (groups_in : BucketMap) (classifier : List String → BucketMap)
    (keep_uniques : Bool) : BucketMap :=
  let groups := groups_in.foldl
    (fun acc kg => (classifier kg.2).foldl (fun a kg2 => dictUpdate a kg2.1 kg2.2) acc)
    []
  if keep_uniques then groups else groups.filter (fun kg => 1 < kg.2.length)

/-- Stage 1 of `find_dupes` (fastdupes.py line 488): the seed bucket map
`{'': getPaths(paths, ignores)}`.  Path walking (`getPaths`) is the external
collaborator; the pipeline receives the flat file list. -/
def stage1 (paths : List String) : BucketMap := [(Key.root, paths)]

/-- Stage 2 (line 489): `groupBy(groups, sizeClassifier, 'sizes',
min_size=min_size)`. -/
def stage2 (fs : FS) (min_size : Nat) (paths : List String) : BucketMap :=
  groupBy (stage1 paths) (groupify (sizeClassifier fs min_size)) false

/-- Stage 3 (line 494): `groupBy(groups, hashClassifier, 'header hashes',
limit=HEAD_SIZE)`. -/
def stage3 (fs : FS) (min_size : Nat) (paths : List String) : BucketMap :=
  groupBy (stage2 fs min_size paths) (groupify (hashClassifier fs HEAD_SIZE)) false

/-- Stage 4 (lines 496-499): content comparison when `exact`, otherwise
`groupBy(groups, hashClassifier, fun_desc='hashes')` — note that this call
passes no `limit`, so Python's default `limit=HEAD_SIZE` applies and the
"full" hash is again computed over only the first `HEAD_SIZE` bytes. -/
def stage4 (fs : FS) (exact : Bool) (min_size : Nat) (paths : List String) : BucketMap :=
  if exact then groupBy (stage3 fs min_size paths) (groupByContent fs) false
  else groupBy (stage3 fs min_size paths) (groupify (hashClassifier fs HEAD_SIZE)) false

/-- `find_dupes(paths, exact=False, ignores=None, min_size=0)` (fastdupes.py
lines 474-501).  Python's own defaults are `exact=False` and `min_size=0`. -/
def find_dupes (fs : FS) (paths : List String) (exact : Bool) (min_size : Nat) : BucketMap :=
  stage4 fs exact min_size paths

/-! ### Derived notions and concrete fixtures -/

/-- `limit` rounded up to the next multiple of the (effective) chunk size. -/
def chunkRound (limit cs : Nat) : Nat := (limit + cs - 1) / cs * cs

/-- Size of a chunk record: unread bytes plus buffered chunk plus one. -/
def chunkMeasure (c : Handle) : Nat := c.rest.length + c.chunk.length + 1

/-- `Q` holds of every path in every bucket, together with the bucket key. -/
def BucketInv (Q : String → Key → Prop) (m : BucketMap) : Prop :=
  ∀ kg ∈ m, ∀ p ∈ kg.2, Q p kg.1

/-- Strict refinement as the specification states it: every bucket of `m2`
is contained in (at least) one bucket of `m1`. -/
def refines (m2 m1 : BucketMap) : Prop :=
  ∀ kg ∈ m2, ∃ kg0 ∈ m1, ∀ p ∈ kg.2, p ∈ kg0.2

/-- A `HEAD_SIZE`-byte run of zero bytes: the shared header of the test
files below. -/
def zeros : List Nat := List.replicate HEAD_SIZE 0

/-- A regular, fully readable, non-symlink file with the given contents. -/
def okFile (b : List Nat) : FileInfo := ⟨b, false, true, true, none⟩

/-- Two files of equal size (`HEAD_SIZE + 1` bytes) with identical first
`HEAD_SIZE` bytes and different last bytes — the `test_common_prefix`
scenario scaled to the header limit. -/
def fsBug : FS := ⟨[("f1", okFile (zeros ++ [1])), ("f2", okFile (zeros ++ [2]))]⟩

/-- Four files: `a`, `b` of one size and `c`, `d` of another, all sharing
the same `HEAD_SIZE`-byte header. -/
def fs4 : FS := ⟨[("a", okFile (zeros ++ [7])), ("b", okFile (zeros ++ [7])),
                  ("c", okFile (zeros ++ [7, 7])), ("d", okFile (zeros ++ [7, 7]))]⟩

/-- Two empty files. -/
def fsEmpty : FS := ⟨[("a", okFile []), ("b", okFile [])]⟩

/-- A filesystem in which `x` exists but raises on `open`, while `y` and
`z` are readable copies of the same byte; no file has a mid-read failure. -/
def fsErr : FS := ⟨[("x", ⟨[1], false, true, false, none⟩),
                    ("y", okFile [1]), ("z", okFile [1])]⟩

/-- Two identical files of `HEAD_SIZE + 1` bytes; `p` opens fine and its
first `HEAD_SIZE` bytes read fine, but any read delivering its last byte
(index `HEAD_SIZE`) raises.  So the size stage and the header-hash stage
succeed on both files, and the failure can only surface during exact-mode
chunk comparison. -/
def fsReadErr : FS :=
  ⟨[("p", ⟨zeros ++ [1], false, true, true, some HEAD_SIZE⟩),
    ("q", ⟨zeros ++ [1], false, true, true, none⟩)]⟩

/-- No file of the filesystem has a mid-read failure: every read performed
on a successfully opened handle succeeds. -/
def NoReadErr (fs : FS) : Prop := ∀ e ∈ fs.files, e.2.readErrAt = none

/-! ### Fallible read layer

The source catches `OSError`/`IOError` around each classifier call
(`groupify`, lines 296-298) and around each `open` in `groupByContent`
(lines 370-374), but the `fh.read(chunk_size)` at line 408 inside
`compareChunks` is wrapped in no `try`/`except` anywhere up the stack
(`compareChunks` → `groupByContent`'s loop → `groupBy` line 261 →
`find_dupes`): a read error there propagates and aborts the run.  The
definitions below embed those propagation paths; on filesystems with no
mid-read failures they agree with the total pipeline
(`find_dupesE_eq_of_noReadErr`). -/

/-- The byte indices touched by `hashFile`'s reads form the interval
`[0, hashTouched len limit)`: the whole file when no limit, otherwise up to
the limit rounded to a whole effective chunk (see `hashFile_of_pos_limit`). -/
def hashTouched (bytesLen limit : Nat) : Nat :=
  if limit = 0 then bytesLen
  else min bytesLen (chunkRound limit (min CHUNK_SIZE limit))

/-- `hashClassifier` with read errors modelled: `hashFile`'s chunked reads
raise iff they would deliver a byte in the bad region, and such an error
propagates out of `hashFile` — to be caught by the `groupify` wrapper. -/
def hashClassifierE (fs : FS) (limit : Nat) (path : String) : Except Unit (Option Key) :=
  match fs.openPath path with
  | Except.error e => Except.error e
  | Except.ok bytes =>
    match fs.readErrAt path with
    | none => Except.ok (some (Key.hash (hashFile bytes limit CHUNK_SIZE)))
    | some k =>
      if k < hashTouched bytes.length limit then Except.error ()
      else Except.ok (some (Key.hash (hashFile bytes limit CHUNK_SIZE)))

/-- `fh.read(chunk_size)` with failure: the read delivers the byte indices
`[pos, pos + min cs rest.length)` of the file and raises iff that range
meets the bad region. -/
def readChunkE (fs : FS) (cs : Nat) (h : Handle) : Except Unit Handle :=
  match fs.readErrAt h.path with
  | none => Except.ok (readChunk cs h)
  | some k =>
    if k < (((fs.lookup h.path).map (fun fi => fi.bytes.length)).getD 0 - h.rest.length) +
        min cs h.rest.length
    then Except.error ()
    else Except.ok (readChunk cs h)

/-- The list comprehension at line 408, left to right: the first raising
read aborts the whole comprehension. -/
def readAllE (fs : FS) (cs : Nat) : List Handle → Except Unit (List Handle)
  | [] => Except.ok []
  | h :: tl =>
    match readChunkE fs cs h with
    | Except.error e => Except.error e
    | Except.ok h2 =>
      match readAllE fs cs tl with
      | Except.error e => Except.error e
      | Except.ok tl2 => Except.ok (h2 :: tl2)

/-- `compareChunks` with fallible reads: any raising read propagates out
uncaught. -/
def compareChunksE (fs : FS) (handles : List Handle) (chunk_size : Nat) :
    Except Unit (List (List Handle) × List (List String)) :=
  match readAllE fs chunk_size handles with
  | Except.error e => Except.error e
  | Except.ok chunks =>
    Except.ok ((partitionChunks chunks).1,
      (partitionChunks chunks).2.map (fun g => g.map Handle.path))

/-- The `while handles:` loop with fallible reads: an error from
`compareChunks` aborts the loop (`Except.ok none` is fuel exhaustion). -/
def cmpLoopE (fs : FS) :
    Nat → List (List Handle) → List (List String) → Except Unit (Option (List (List String)))
  | _, [], results => Except.ok (some results)
  | 0, _ :: _, _ => Except.ok none
  | fuel + 1, g :: queue, results =>
    match compareChunksE fs g CHUNK_SIZE with
    | Except.error e => Except.error e
    | Except.ok md => cmpLoopE fs fuel (queue ++ md.1) (results ++ md.2)

/-- `groupByContent` with fallible reads: open errors are still skipped
(`openHandles`), but a read error inside the comparison loop propagates. -/
def groupByContentE (fs : FS) (paths : List String) : Except Unit BucketMap :=
  match cmpLoopE fs (queueMeasure [openHandles fs paths]) [openHandles fs paths] [] with
  | Except.error e => Except.error e
  | Except.ok res =>
    Except.ok ((res.getD []).foldl (fun m g => dictAssign m (Key.rep (g.headD "")) g) [])

/-- The fold of `groupBy` when the classifier itself can raise (the call at
line 261 is not wrapped in `try`/`except`): the first raising classifier
call aborts the whole `groupBy`. -/
def groupByEFold (classifier : List String → Except Unit BucketMap) :
    List (Key × List String) → BucketMap → Except Unit BucketMap
  | [], acc => Except.ok acc
  | kg :: tl, acc =>
    match classifier kg.2 with
    | Except.error e => Except.error e
    | Except.ok outs =>
      groupByEFold classifier tl (outs.foldl (fun a kg2 => dictUpdate a kg2.1 kg2.2) acc)

/-- `groupBy` with a fallible classifier. -/
def groupByE (groups_in : BucketMap) (classifier : List String → Except Unit BucketMap)
    (keep_uniques : Bool) : Except Unit BucketMap :=
  match groupByEFold classifier groups_in [] with
  | Except.error e => Except.error e
  | Except.ok groups =>
    Except.ok (if keep_uniques then groups else groups.filter (fun kg => 1 < kg.2.length))

/-- `find_dupes` over the fallible layer.  The `groupify`-wrapped
classifiers never raise (their per-path errors are caught internally and
the affected path dropped), but in exact mode a read error inside
`compareChunks` propagates through `groupByContent` and `groupBy` and
aborts the run. -/
def find_dupesE (fs : FS) (paths : List String) (exact : Bool) (min_size : Nat) :
    Except Unit BucketMap :=
  match groupByE (stage1 paths)
      (fun ps => Except.ok (groupify (sizeClassifier fs min_size) ps)) false with
  | Except.error e => Except.error e
  | Except.ok m2 =>
    match groupByE m2 (fun ps => Except.ok (groupify (hashClassifierE fs HEAD_SIZE) ps)) false with
    | Except.error e => Except.error e
    | Except.ok m3 =>
      if exact then groupByE m3 (groupByContentE fs) false
      else groupByE m3 (fun ps => Except.ok (groupify (hashClassifierE fs HEAD_SIZE) ps)) false

/-! ### Lemmas about `hashFile` -/

theorem hashLoop_no_limit (cs : Nat) (hcs : 0 < cs) :
    ∀ (n : Nat) (rest : List Nat), rest.length ≤ n → ∀ read,
      hashLoop cs 0 rest read = rest := by
  intro n
  induction n with
  | zero =>
    intro rest hn read
    have : rest = [] := List.eq_nil_of_length_eq_zero (Nat.le_antisymm hn (Nat.zero_le _))
    subst this
    rw [hashLoop]
    simp
  | succ n ih =>
    intro rest hn read
    rw [hashLoop]
    by_cases hr : rest = []
    · simp [hr]
    · have hcond : ¬(cs = 0 ∨ rest = []) := by
        push_neg
        exact ⟨by omega, hr⟩
      rw [dif_neg hcond]
      have hlim : ¬(0 < 0 ∧ (0:Nat) ≤ read + cs) := by simp
      rw [if_neg hlim]
      have hlen : (rest.drop cs).length ≤ n := by
        have h1 : 0 < rest.length := List.length_pos.mpr hr
        simp only [List.length_drop]
        omega
      rw [ih _ hlen]
      exact List.take_append_drop cs rest

theorem hashLoop_limit (cs : Nat) (hcs : 0 < cs) :
    ∀ (n : Nat) (limit read : Nat), limit - read ≤ n → read < limit →
      ∀ rest : List Nat, hashLoop cs limit rest read = rest.take (chunkRound (limit - read) cs) := by
  intro n
  induction n with
  | zero => intro limit read hn hlt rest; omega
  | succ n ih =>
    intro limit read hn hlt rest
    rw [hashLoop]
    by_cases hr : rest = []
    · subst hr
      simp
    · have hcond : ¬(cs = 0 ∨ rest = []) := by
        push_neg
        exact ⟨Nat.not_eq_zero_of_lt hcs, hr⟩
      rw [dif_neg hcond]
      by_cases hstop : limit ≤ read + cs
      · rw [if_pos ⟨Nat.lt_of_le_of_lt (Nat.zero_le _) hlt, hstop⟩]
        have hround : chunkRound (limit - read) cs = cs := by
          unfold chunkRound
          have h1 : 1 ≤ limit - read := by omega
          have h2 : limit - read ≤ cs := by omega
          have hdiv : (limit - read + cs - 1) / cs = 1 := by
            apply Nat.div_eq_of_lt_le
            · omega
            · omega
          rw [hdiv, Nat.one_mul]
        rw [hround]
      · have hlim2 : ¬(0 < limit ∧ limit ≤ read + cs) := by
          intro hc
          exact hstop hc.2
        rw [if_neg hlim2]
        have hn2 : limit - (read + cs) ≤ n := by omega
        have hlt2 : read + cs < limit := by omega
        rw [ih limit (read + cs) hn2 hlt2]
        have harith : chunkRound (limit - read) cs = cs + chunkRound (limit - (read + cs)) cs := by
          unfold chunkRound
          have hL : cs < limit - read := by omega
          have e1 : limit - read + cs - 1 = (limit - read - 1) + cs := by omega
          have e2 : limit - (read + cs) + cs - 1 = limit - read - 1 - cs + cs := by omega
          have e3 : limit - read - 1 - cs + cs = limit - read - 1 := by omega
          rw [e1, e2, e3, Nat.add_div_right _ hcs]
          ring
        rw [harith, List.take_add]

theorem hashFile_of_pos_limit (file : List Nat) (limit chunk_size : Nat)
    (hl : 0 < limit) (hc : 0 < chunk_size) :
    hashFile file limit chunk_size = file.take (chunkRound limit (min chunk_size limit)) := by
  unfold hashFile
  have hne : limit ≠ 0 := Nat.not_eq_zero_of_lt hl
  simp only [hne, ne_eq, not_false_eq_true, if_true]
  have hcs : 0 < min chunk_size limit := lt_min hc hl
  have := hashLoop_limit (min chunk_size limit) hcs limit limit 0 (by omega) hl file
  simpa using this

theorem hashFile_no_limit (file : List Nat) (chunk_size : Nat) (hc : 0 < chunk_size) :
    hashFile file 0 chunk_size = file := by
  unfold hashFile
  simp only [ne_eq, not_true_eq_false, if_false]
  exact hashLoop_no_limit chunk_size hc file.length file (Nat.le_refl _) 0

theorem chunkRound_ge (limit cs : Nat) (hc : 0 < cs) : limit ≤ chunkRound limit cs := by
  unfold chunkRound
  rcases Nat.eq_zero_or_pos limit with h | h
  · simp [h]
  · have h1 : limit + cs - 1 = (limit - 1) + cs := by omega
    rw [h1, Nat.add_div_right _ hc, Nat.add_mul, Nat.one_mul]
    have := Nat.div_mul_le_self (limit - 1) cs
    have h2 := Nat.lt_div_mul_add (a := limit - 1) hc
    omega

theorem chunkRound_lt (limit cs : Nat) (hc : 0 < cs) : chunkRound limit cs < limit + cs := by
  unfold chunkRound
  have := Nat.div_mul_le_self (limit + cs - 1) cs
  omega

/-- The bytes hashed by a header-limited `hashFile` of a file that starts
with `HEAD_SIZE` zero bytes are exactly those zero bytes, whatever follows. -/
theorem hashFile_header_zeros (t : List Nat) :
    hashFile (List.replicate HEAD_SIZE 0 ++ t) HEAD_SIZE CHUNK_SIZE =
      List.replicate HEAD_SIZE 0 := by
  have h1 : hashFile (List.replicate HEAD_SIZE 0 ++ t) HEAD_SIZE CHUNK_SIZE =
      (List.replicate HEAD_SIZE 0 ++ t).take (chunkRound HEAD_SIZE (min CHUNK_SIZE HEAD_SIZE)) := by
    apply hashFile_of_pos_limit
    · decide
    · decide
  rw [h1]
  have h2 : min CHUNK_SIZE HEAD_SIZE = HEAD_SIZE := by decide
  have h3 : chunkRound HEAD_SIZE HEAD_SIZE = HEAD_SIZE := by decide
  rw [h2, h3]
  exact List.take_left' (List.length_replicate _ _)

/-- Hashing an empty file consumes nothing. -/
theorem hashFile_nil (limit chunk_size : Nat) : hashFile [] limit chunk_size = [] := by
  unfold hashFile
  rw [hashLoop]
  simp

/-! ### Lemmas about `partitionChunks`, `compareChunks` and `cmpLoop` -/

theorem partitionChunks_nil : partitionChunks [] = ([], []) := by
  rw [partitionChunks]

theorem partitionChunks_cons (c : Handle) (rest : List Handle) :
    partitionChunks (c :: rest) =
      if (c :: rest.filter (fun x => decide (x.chunk = c.chunk))).length = 1 ∨ c.chunk = [] then
        ((partitionChunks (rest.filter (fun x => !(decide (x.chunk = c.chunk))))).1,
         (c :: rest.filter (fun x => decide (x.chunk = c.chunk))) ::
           (partitionChunks (rest.filter (fun x => !(decide (x.chunk = c.chunk))))).2)
      else
        ((c :: rest.filter (fun x => decide (x.chunk = c.chunk))) ::
           (partitionChunks (rest.filter (fun x => !(decide (x.chunk = c.chunk))))).1,
         (partitionChunks (rest.filter (fun x => !(decide (x.chunk = c.chunk))))).2) := by
  rw [partitionChunks]

/-- Every record of the input ends up in exactly one partition: the
concatenation of all carried-forward and finished partitions is a
permutation of the input. -/
theorem partitionChunks_perm :
    ∀ (n : Nat) (chunks : List Handle), chunks.length ≤ n →
      ((partitionChunks chunks).1.flatten ++ (partitionChunks chunks).2.flatten).Perm chunks := by
  intro n
  induction n with
  | zero =>
    intro chunks hn
    have h0 : chunks = [] := List.eq_nil_of_length_eq_zero (Nat.le_antisymm hn (Nat.zero_le _))
    subst h0
    simp [partitionChunks_nil]
  | succ n ih =>
    intro chunks hn
    match chunks with
    | [] => simp [partitionChunks_nil]
    | c :: rest =>
      rw [partitionChunks_cons]
      set A := rest.filter (fun x => decide (x.chunk = c.chunk)) with hA
      set B := rest.filter (fun x => !(decide (x.chunk = c.chunk))) with hB
      have hBlen : B.length ≤ n := by
        have := List.length_filter_le (fun x => !(decide (x.chunk = c.chunk))) rest
        simp only [List.length_cons] at hn
        rw [hB]
        omega
      have ihB := ih _ hBlen
      have hsplit : ((c :: A) ++ B).Perm (c :: rest) := by
        have hfp := List.filter_append_perm (fun x => decide (x.chunk = c.chunk)) rest
        rw [hA, hB]
        simpa using hfp.cons c
      by_cases hcase : (c :: A).length = 1 ∨ c.chunk = []
      · rw [if_pos hcase]
        show ((partitionChunks B).1.flatten ++
          ((c :: A) ++ (partitionChunks B).2.flatten)).Perm (c :: rest)
        have s1 : ((partitionChunks B).1.flatten ++
            ((c :: A) ++ (partitionChunks B).2.flatten)).Perm
            ((c :: A) ++ ((partitionChunks B).1.flatten ++ (partitionChunks B).2.flatten)) := by
          rw [← List.append_assoc, ← List.append_assoc]
          exact List.Perm.append_right _ List.perm_append_comm
        exact s1.trans ((List.Perm.append_left _ ihB).trans hsplit)
      · rw [if_neg hcase]
        show (((c :: A) ++ (partitionChunks B).1.flatten) ++
          (partitionChunks B).2.flatten).Perm (c :: rest)
        rw [List.append_assoc]
        exact (List.Perm.append_left _ ihB).trans hsplit

/-- Shape of the partitions: a carried-forward partition has at least two
members, all with the (equal, non-empty) just-read chunk; a finished
partition is non-empty and is a singleton or has all members at end of file
(empty chunk). -/
theorem partitionChunks_shape :
    ∀ (n : Nat) (chunks : List Handle), chunks.length ≤ n →
      (∀ g ∈ (partitionChunks chunks).1, 2 ≤ g.length ∧ ∀ h ∈ g, h.chunk ≠ []) ∧
      (∀ g ∈ (partitionChunks chunks).2, g ≠ [] ∧ (g.length = 1 ∨ ∀ h ∈ g, h.chunk = [])) := by
  intro n
  induction n with
  | zero =>
    intro chunks hn
    have h0 : chunks = [] := List.eq_nil_of_length_eq_zero (Nat.le_antisymm hn (Nat.zero_le _))
    subst h0
    simp [partitionChunks_nil]
  | succ n ih =>
    intro chunks hn
    match chunks with
    | [] => simp [partitionChunks_nil]
    | c :: rest =>
      rw [partitionChunks_cons]
      set A := rest.filter (fun x => decide (x.chunk = c.chunk)) with hA
      set B := rest.filter (fun x => !(decide (x.chunk = c.chunk))) with hB
      have hBlen : B.length ≤ n := by
        have := List.length_filter_le (fun x => !(decide (x.chunk = c.chunk))) rest
        simp only [List.length_cons] at hn
        rw [hB]
        omega
      have ihB := ih _ hBlen
      have hmemA : ∀ h ∈ c :: A, h.chunk = c.chunk := by
        intro h hh
        rcases List.mem_cons.mp hh with hh1 | hh2
        · rw [hh1]
        · rw [hA] at hh2
          have := (List.mem_filter.mp hh2).2
          simpa using this
      by_cases hcase : (c :: A).length = 1 ∨ c.chunk = []
      · rw [if_pos hcase]
        refine ⟨ihB.1, ?_⟩
        intro g hg
        rcases List.mem_cons.mp hg with hg1 | hg2
        · subst hg1
          refine ⟨by simp, ?_⟩
          rcases hcase with h1 | h2
          · exact Or.inl h1
          · exact Or.inr fun h hh => (hmemA h hh).trans h2
        · exact ihB.2 g hg2
      · rw [if_neg hcase]
        push_neg at hcase
        refine ⟨?_, ihB.2⟩
        intro g hg
        rcases List.mem_cons.mp hg with hg1 | hg2
        · subst hg1
          constructor
          · have h1 : (c :: A).length = A.length + 1 := by simp
            have h2 := hcase.1
            omega
          · intro h hh
            rw [hmemA h hh]
            exact hcase.2
        · exact ihB.1 g hg2

theorem chunkMeasure_readChunk (cs : Nat) (h : Handle) :
    chunkMeasure (readChunk cs h) = handleMeasure h := by
  unfold chunkMeasure readChunk handleMeasure
  simp only [List.length_drop, List.length_take]
  omega

theorem groupMeasure_le_chunkSum (m : List Handle) (hne : m ≠ [])
    (hch : ∀ h ∈ m, h.chunk ≠ []) :
    groupMeasure m ≤ (m.map chunkMeasure).sum := by
  match m with
  | [] => exact absurd rfl hne
  | h0 :: tl =>
    unfold groupMeasure
    simp only [List.map_cons, List.sum_cons]
    have h1 : handleMeasure h0 + 1 ≤ chunkMeasure h0 := by
      have := List.length_pos.mpr (hch h0 (List.mem_cons_self h0 tl))
      unfold handleMeasure chunkMeasure
      omega
    have h2 : (tl.map handleMeasure).sum ≤ (tl.map chunkMeasure).sum := by
      apply List.sum_le_sum
      intro a _
      unfold handleMeasure chunkMeasure
      omega
    omega

theorem queueMeasure_more_le (chunks : List Handle) :
    queueMeasure (partitionChunks chunks).1 ≤ (chunks.map chunkMeasure).sum := by
  have hperm := partitionChunks_perm chunks.length chunks (Nat.le_refl _)
  have hshape := (partitionChunks_shape chunks.length chunks (Nat.le_refl _)).1
  have hsum : ((partitionChunks chunks).1.flatten.map chunkMeasure).sum +
      ((partitionChunks chunks).2.flatten.map chunkMeasure).sum =
      (chunks.map chunkMeasure).sum := by
    have := (hperm.map chunkMeasure).sum_eq
    simpa [List.map_append, List.sum_append] using this
  have hflat : ((partitionChunks chunks).1.flatten.map chunkMeasure).sum =
      ((partitionChunks chunks).1.map (fun m => (m.map chunkMeasure).sum)).sum := by
    rw [List.map_flatten, List.sum_flatten, List.map_map]
    rfl
  have hgroups : queueMeasure (partitionChunks chunks).1 ≤
      ((partitionChunks chunks).1.map (fun m => (m.map chunkMeasure).sum)).sum := by
    unfold queueMeasure
    apply List.sum_le_sum
    intro m hm
    have hs := hshape m hm
    apply groupMeasure_le_chunkSum
    · intro hnil
      rw [hnil] at hs
      simp at hs
    · exact hs.2
  omega

theorem compareChunks_measure (g : List Handle) (cs : Nat) :
    queueMeasure (compareChunks g cs).1 < groupMeasure g := by
  show queueMeasure (partitionChunks (g.map (readChunk cs))).1 < groupMeasure g
  have h1 := queueMeasure_more_le (g.map (readChunk cs))
  have h2 : (g.map (readChunk cs)).map chunkMeasure = g.map handleMeasure := by
    rw [List.map_map]
    apply List.map_congr_left
    intro a _
    exact chunkMeasure_readChunk cs a
  rw [h2] at h1
  unfold groupMeasure
  omega

/-- The fuel `queueMeasure queue` always suffices for the comparison loop:
each round strictly decreases the queue measure, because every
carried-forward partition has every member's non-empty chunk consumed. -/
theorem cmpLoop_isSome_of_fuel :
    ∀ (fuel : Nat) (queue : List (List Handle)) (results : List (List String)),
      queueMeasure queue ≤ fuel → (cmpLoop fuel queue results).isSome := by
  intro fuel
  induction fuel with
  | zero =>
    intro queue results hq
    match queue with
    | [] => rfl
    | g :: qs =>
      exfalso
      unfold queueMeasure at hq
      simp only [List.map_cons, List.sum_cons] at hq
      unfold groupMeasure at hq
      omega
  | succ fuel ih =>
    intro queue results hq
    match queue with
    | [] => rfl
    | g :: qs =>
      show (cmpLoop fuel (qs ++ (compareChunks g CHUNK_SIZE).1)
        (results ++ (compareChunks g CHUNK_SIZE).2)).isSome
      apply ih
      have hdec := compareChunks_measure g CHUNK_SIZE
      have hsplit : queueMeasure (qs ++ (compareChunks g CHUNK_SIZE).1) =
          queueMeasure qs + queueMeasure (compareChunks g CHUNK_SIZE).1 := by
        unfold queueMeasure
        rw [List.map_append, List.sum_append]
      have hq2 : queueMeasure (g :: qs) = groupMeasure g + queueMeasure qs := by
        unfold queueMeasure
        simp [List.map_cons, List.sum_cons]
      omega

/-! ### Bucket-map invariants -/

theorem addPath_mem {g : List String} {p q : String} (h : q ∈ addPath g p) :
    q ∈ g ∨ q = p := by
  unfold addPath at h
  by_cases hp : p ∈ g
  · rw [if_pos hp] at h
    exact Or.inl h
  · rw [if_neg hp] at h
    rcases List.mem_append.mp h with h1 | h2
    · exact Or.inl h1
    · exact Or.inr (List.mem_singleton.mp h2)

theorem setUpdate_mem : ∀ {ps g : List String} {q : String}, q ∈ setUpdate g ps →
    q ∈ g ∨ q ∈ ps := by
  intro ps
  induction ps with
  | nil => intro g q h; exact Or.inl h
  | cons a tl ih =>
    intro g q h
    unfold setUpdate at h
    rw [List.foldl_cons] at h
    rcases ih h with h1 | h2
    · rcases addPath_mem h1 with h3 | h4
      · exact Or.inl h3
      · exact Or.inr (by rw [h4]; exact List.mem_cons_self a tl)
    · exact Or.inr (List.mem_cons_of_mem a h2)

theorem dictAdd_inv {Q : String → Key → Prop} {m : BucketMap} {k : Key} {p : String}
    (hm : BucketInv Q m) (hp : Q p k) : BucketInv Q (dictAdd m k p) := by
  unfold dictAdd
  by_cases hany : m.any (fun kg => kg.1 = k)
  · rw [if_pos hany]
    intro kg hkg q hq
    rcases List.mem_map.mp hkg with ⟨kg0, hkg0, hkg0e⟩
    by_cases hk : kg0.1 = k
    · rw [if_pos hk] at hkg0e
      subst hkg0e
      rcases addPath_mem hq with h1 | h2
      · exact hm kg0 hkg0 q h1
      · rw [h2]
        simpa [hk] using hp
    · rw [if_neg hk] at hkg0e
      subst hkg0e
      exact hm kg0 hkg0 q hq
  · rw [if_neg hany]
    intro kg hkg q hq
    rcases List.mem_append.mp hkg with h1 | h2
    · exact hm kg h1 q hq
    · have h3 : kg = (k, [p]) := List.mem_singleton.mp h2
      subst h3
      have h4 : q = p := List.mem_singleton.mp hq
      rw [h4]
      exact hp

theorem dictUpdate_inv {Q : String → Key → Prop} {m : BucketMap} {k : Key} {ps : List String}
    (hm : BucketInv Q m) (hp : ∀ p ∈ ps, Q p k) : BucketInv Q (dictUpdate m k ps) := by
  unfold dictUpdate
  by_cases hany : m.any (fun kg => kg.1 = k)
  · rw [if_pos hany]
    intro kg hkg q hq
    rcases List.mem_map.mp hkg with ⟨kg0, hkg0, hkg0e⟩
    by_cases hk : kg0.1 = k
    · rw [if_pos hk] at hkg0e
      subst hkg0e
      rcases setUpdate_mem hq with h1 | h2
      · exact hm kg0 hkg0 q h1
      · simpa [hk] using hp q h2
    · rw [if_neg hk] at hkg0e
      subst hkg0e
      exact hm kg0 hkg0 q hq
  · rw [if_neg hany]
    intro kg hkg q hq
    rcases List.mem_append.mp hkg with h1 | h2
    · exact hm kg h1 q hq
    · have h3 : kg = (k, setUpdate [] ps) := List.mem_singleton.mp h2
      subst h3
      rcases setUpdate_mem hq with h1 | h2
      · simp at h1
      · exact hp q h2

theorem dictAssign_inv {Q : String → Key → Prop} {m : BucketMap} {k : Key} {v : List String}
    (hm : BucketInv Q m) (hp : ∀ p ∈ v, Q p k) : BucketInv Q (dictAssign m k v) := by
  unfold dictAssign
  by_cases hany : m.any (fun kg => kg.1 = k)
  · rw [if_pos hany]
    intro kg hkg q hq
    rcases List.mem_map.mp hkg with ⟨kg0, hkg0, hkg0e⟩
    by_cases hk : kg0.1 = k
    · rw [if_pos hk] at hkg0e
      subst hkg0e
      simpa [hk] using hp q hq
    · rw [if_neg hk] at hkg0e
      subst hkg0e
      exact hm kg0 hkg0 q hq
  · rw [if_neg hany]
    intro kg hkg q hq
    rcases List.mem_append.mp hkg with h1 | h2
    · exact hm kg h1 q hq
    · have h3 : kg = (k, v) := List.mem_singleton.mp h2
      subst h3
      exact hp q hq

theorem groupify_fold_inv {Q : String → Key → Prop} (f : String → Except Unit (Option Key)) :
    ∀ (l : List String) (m : BucketMap), BucketInv Q m →
      (∀ p ∈ l, ∀ k, f p = Except.ok (some k) → Q p k) →
      BucketInv Q (l.foldl (groupifyStep f) m) := by
  intro l
  induction l with
  | nil => intro m hm _; exact hm
  | cons q tl ih =>
    intro m hm hl
    rw [List.foldl_cons]
    apply ih
    · cases hfq : f q with
      | error e => simpa [groupifyStep, hfq] using hm
      | ok v =>
        cases v with
        | none => simpa [groupifyStep, hfq] using hm
        | some k =>
          have hq : Q q k := hl q (List.mem_cons_self q tl) k hfq
          simpa [groupifyStep, hfq] using dictAdd_inv hm hq
    · intro p hp k hk
      exact hl p (List.mem_cons_of_mem q hp) k hk

/-- Every path in a `groupify` bucket came from the input list and was given
exactly that bucket's key by the classifier. -/
theorem groupify_mem (f : String → Except Unit (Option Key)) (paths : List String) :
    BucketInv (fun p k => p ∈ paths ∧ f p = Except.ok (some k)) (groupify f paths) := by
  unfold groupify
  apply groupify_fold_inv
  · intro kg hkg
    simp at hkg
  · intro p hp k hk
    exact ⟨hp, hk⟩

theorem BucketInv_imp {Q1 Q2 : String → Key → Prop} (h : ∀ p k, Q1 p k → Q2 p k)
    {m : BucketMap} (hm : BucketInv Q1 m) : BucketInv Q2 m := by
  intro kg hkg p hp
  exact h p kg.1 (hm kg hkg p hp)

theorem dictUpdate_fold_inv {Q : String → Key → Prop} :
    ∀ (outs : BucketMap) (acc : BucketMap), BucketInv Q acc → BucketInv Q outs →
      BucketInv Q (outs.foldl (fun a kg2 => dictUpdate a kg2.1 kg2.2) acc) := by
  intro outs
  induction outs with
  | nil => intro acc hacc _; exact hacc
  | cons kg tl ih =>
    intro acc hacc houts
    rw [List.foldl_cons]
    apply ih
    · exact dictUpdate_inv hacc (fun p hp => houts kg (List.mem_cons_self kg tl) p hp)
    · intro kg2 hkg2 p hp
      exact houts kg2 (List.mem_cons_of_mem kg hkg2) p hp

/-- An invariant holding of every classifier output bucket (for the groups
actually classified) holds of the merged, filtered `groupBy` result. -/
theorem groupBy_inv {Q : String → Key → Prop} (m : BucketMap)
    (cl : List String → BucketMap) (ku : Bool)
    (hcl : ∀ kg ∈ m, BucketInv Q (cl kg.2)) : BucketInv Q (groupBy m cl ku) := by
  unfold groupBy
  have hmain : ∀ (entries : BucketMap) (acc : BucketMap), BucketInv Q acc →
      (∀ kg ∈ entries, BucketInv Q (cl kg.2)) →
      BucketInv Q (entries.foldl
        (fun acc kg => (cl kg.2).foldl (fun a kg2 => dictUpdate a kg2.1 kg2.2) acc) acc) := by
    intro entries
    induction entries with
    | nil => intro acc hacc _; exact hacc
    | cons kg tl ih =>
      intro acc hacc hent
      rw [List.foldl_cons]
      apply ih
      · exact dictUpdate_fold_inv _ _ hacc (hent kg (List.mem_cons_self kg tl))
      · intro kg2 hkg2
        exact hent kg2 (List.mem_cons_of_mem kg hkg2)
  have hg := hmain m [] (by intro kg hkg; simp at hkg) hcl
  cases ku with
  | true => simpa using hg
  | false =>
    simp only [Bool.false_eq_true, if_false]
    intro kg hkg p hp
    exact hg kg (List.mem_filter.mp hkg).1 p hp

/-- Paths in a `groupBy`-with-`groupify` stage output come from some input
group and received that output bucket's key from the classifier. -/
theorem groupBy_groupify_inv (m : BucketMap) (f : String → Except Unit (Option Key))
    (ku : Bool) :
    BucketInv (fun p k => (∃ kg0 ∈ m, p ∈ kg0.2) ∧ f p = Except.ok (some k))
      (groupBy m (groupify f) ku) := by
  apply groupBy_inv
  intro kg hkg
  exact BucketInv_imp (fun p k hq => ⟨⟨kg, hkg, hq.1⟩, hq.2⟩) (groupify_mem f kg.2)

/-! ### Provenance through the content-comparison stage -/

theorem compareChunks_mem (g : List Handle) (cs : Nat) :
    (∀ m ∈ (compareChunks g cs).1, ∀ h ∈ m, ∃ h0 ∈ g, h.path = h0.path) ∧
    (∀ d ∈ (compareChunks g cs).2, ∀ p ∈ d, ∃ h0 ∈ g, p = h0.path) := by
  have hperm := partitionChunks_perm (g.map (readChunk cs)).length _ (Nat.le_refl _)
  constructor
  · intro m hm h hh
    have h1 : h ∈ (partitionChunks (g.map (readChunk cs))).1.flatten :=
      List.mem_flatten.mpr ⟨m, hm, hh⟩
    have h2 : h ∈ g.map (readChunk cs) :=
      hperm.mem_iff.mp (List.mem_append.mpr (Or.inl h1))
    rcases List.mem_map.mp h2 with ⟨h0, hh0, he⟩
    refine ⟨h0, hh0, ?_⟩
    rw [← he]
    rfl
  · intro d hd p hp
    have hd2 : d ∈ (partitionChunks (g.map (readChunk cs))).2.map
        (fun gr => gr.map Handle.path) := hd
    rcases List.mem_map.mp hd2 with ⟨dH, hdH, hde⟩
    subst hde
    rcases List.mem_map.mp hp with ⟨h, hh, hpe⟩
    have h1 : h ∈ (partitionChunks (g.map (readChunk cs))).2.flatten :=
      List.mem_flatten.mpr ⟨dH, hdH, hh⟩
    have h2 : h ∈ g.map (readChunk cs) :=
      hperm.mem_iff.mp (List.mem_append.mpr (Or.inr h1))
    rcases List.mem_map.mp h2 with ⟨h0, hh0, he⟩
    refine ⟨h0, hh0, ?_⟩
    rw [← hpe, ← he]
    rfl

theorem cmpLoop_out_mem :
    ∀ (fuel : Nat) (queue : List (List Handle)) (res out : List (List String)),
      cmpLoop fuel queue res = some out →
      ∀ g ∈ out, ∀ p ∈ g,
        (∃ g0 ∈ res, p ∈ g0) ∨ (∃ gq ∈ queue, ∃ h0 ∈ gq, p = h0.path) := by
  intro fuel
  induction fuel with
  | zero =>
    intro queue res out heq g hg p hp
    match queue with
    | [] =>
      have hout : res = out := by simpa [cmpLoop] using heq
      subst hout
      exact Or.inl ⟨g, hg, hp⟩
    | q :: qs => simp [cmpLoop] at heq
  | succ fuel ih =>
    intro queue res out heq g hg p hp
    match queue with
    | [] =>
      have hout : res = out := by simpa [cmpLoop] using heq
      subst hout
      exact Or.inl ⟨g, hg, hp⟩
    | q :: qs =>
      have heq2 : cmpLoop fuel (qs ++ (compareChunks q CHUNK_SIZE).1)
          (res ++ (compareChunks q CHUNK_SIZE).2) = some out := heq
      rcases ih _ _ _ heq2 g hg p hp with ⟨g0, hg0, hpg0⟩ | ⟨gq, hgq, h0, hh0, hpe⟩
      · rcases List.mem_append.mp hg0 with h1 | h2
        · exact Or.inl ⟨g0, h1, hpg0⟩
        · rcases (compareChunks_mem q CHUNK_SIZE).2 g0 h2 p hpg0 with ⟨h0, hh0, hpe⟩
          exact Or.inr ⟨q, List.mem_cons_self q qs, h0, hh0, hpe⟩
      · rcases List.mem_append.mp hgq with h1 | h2
        · exact Or.inr ⟨gq, List.mem_cons_of_mem q h1, h0, hh0, hpe⟩
        · rcases (compareChunks_mem q CHUNK_SIZE).1 gq h2 h0 hh0 with ⟨h1, hh1, hpe1⟩
          exact Or.inr ⟨q, List.mem_cons_self q qs, h1, hh1, hpe.trans hpe1⟩

theorem dictAssign_fold_inv {Q : String → Key → Prop} :
    ∀ (results : List (List String)) (acc : BucketMap), BucketInv Q acc →
      (∀ g ∈ results, ∀ p ∈ g, ∀ k, Q p k) →
      BucketInv Q (results.foldl (fun m g => dictAssign m (Key.rep (g.headD "")) g) acc) := by
  intro results
  induction results with
  | nil => intro acc hacc _; exact hacc
  | cons g tl ih =>
    intro acc hacc hres
    rw [List.foldl_cons]
    apply ih
    · exact dictAssign_inv hacc (fun p hp => hres g (List.mem_cons_self g tl) p hp _)
    · intro g2 hg2 p hp k
      exact hres g2 (List.mem_cons_of_mem g hg2) p hp k

/-- Every path in a `groupByContent` bucket is one of the input paths, and
one that opened successfully. -/
theorem openHandles_mem (fs : FS) (paths : List String) :
    ∀ h ∈ openHandles fs paths, h.path ∈ paths ∧ ∃ b, fs.openPath h.path = Except.ok b := by
  intro h hh
  rcases List.mem_filterMap.mp hh with ⟨q, hq, he⟩
  cases hop : fs.openPath q with
  | error e => rw [hop] at he; simp at he
  | ok bytes =>
    rw [hop] at he
    simp only [Option.some.injEq] at he
    subst he
    exact ⟨hq, bytes, hop⟩

theorem groupByContent_mem (fs : FS) (paths : List String) :
    BucketInv (fun p _ => p ∈ paths ∧ ∃ b, fs.openPath p = Except.ok b)
      (groupByContent fs paths) := by
  unfold groupByContent contentResults
  obtain ⟨out, hout⟩ := Option.isSome_iff_exists.mp
    (cmpLoop_isSome_of_fuel (queueMeasure [openHandles fs paths])
      [openHandles fs paths] [] (Nat.le_refl _))
  rw [hout]
  simp only [Option.getD_some]
  refine dictAssign_fold_inv out [] (by intro kg hkg; simp at hkg) ?_
  intro g hg p hp k
  rcases cmpLoop_out_mem _ _ _ _ hout g hg p hp with ⟨g0, hg0, _⟩ | ⟨gq, hgq, h0, hh0, hpe⟩
  · simp at hg0
  · have hq : gq = openHandles fs paths := by simpa using hgq
    subst hq
    have := openHandles_mem fs paths h0 hh0
    rw [hpe]
    exact this

/-! ### Error handling: a failing path is dropped, the rest is unchanged -/

theorem groupify_fold_filter_error (f : String → Except Unit (Option Key)) (p : String)
    (hf : f p = Except.error ()) :
    ∀ (l : List String) (acc : BucketMap),
      l.foldl (groupifyStep f) acc =
        (l.filter (fun q => !(decide (q = p)))).foldl (groupifyStep f) acc := by
  intro l
  induction l with
  | nil => intro acc; rfl
  | cons q tl ih =>
    intro acc
    by_cases hq : q = p
    · subst hq
      rw [List.foldl_cons]
      have hstep : groupifyStep f acc q = acc := by
        unfold groupifyStep
        rw [hf]
      rw [hstep]
      have hfil : (q :: tl).filter (fun r => !(decide (r = q))) =
          tl.filter (fun r => !(decide (r = q))) := by
        rw [List.filter_cons_of_neg]
        simp
      rw [hfil]
      exact ih acc
    · rw [List.foldl_cons]
      have hfil : (q :: tl).filter (fun r => !(decide (r = p))) =
          q :: tl.filter (fun r => !(decide (r = p))) := by
        rw [List.filter_cons_of_pos]
        simp [hq]
      rw [hfil, List.foldl_cons]
      exact ih _

theorem groupify_error_skip (f : String → Except Unit (Option Key)) (p : String)
    (paths : List String) (hf : f p = Except.error ()) :
    groupify f paths = groupify f (paths.filter (fun q => !(decide (q = p)))) :=
  groupify_fold_filter_error f p hf paths []

theorem filterMap_drop_none {α β : Type} [DecidableEq α] (F : α → Option β) (p : α)
    (hF : F p = none) :
    ∀ l : List α, l.filterMap F = (l.filter (fun q => !(decide (q = p)))).filterMap F := by
  intro l
  induction l with
  | nil => rfl
  | cons q tl ih =>
    by_cases hq : q = p
    · subst hq
      have hfil : (q :: tl).filter (fun r => !(decide (r = q))) =
          tl.filter (fun r => !(decide (r = q))) := by
        rw [List.filter_cons_of_neg]
        simp
      rw [hfil, List.filterMap_cons, hF]
      exact ih
    · have hfil : (q :: tl).filter (fun r => !(decide (r = p))) =
          q :: tl.filter (fun r => !(decide (r = p))) := by
        rw [List.filter_cons_of_pos]
        simp [hq]
      rw [hfil, List.filterMap_cons, List.filterMap_cons]
      cases F q with
      | none => exact ih
      | some b => rw [ih]

theorem openHandles_error_skip (fs : FS) (p : String) (paths : List String)
    (hf : fs.openPath p = Except.error ()) :
    openHandles fs paths = openHandles fs (paths.filter (fun q => !(decide (q = p)))) := by
  unfold openHandles
  apply filterMap_drop_none
  rw [hf]

theorem groupByContent_error_skip (fs : FS) (p : String) (paths : List String)
    (hf : fs.openPath p = Except.error ()) :
    groupByContent fs paths =
      groupByContent fs (paths.filter (fun q => !(decide (q = p)))) := by
  unfold groupByContent contentResults
  rw [openHandles_error_skip fs p paths hf]

/-! ### Stage containment -/

theorem groupBy_groupify_sub (m : BucketMap) (f : String → Except Unit (Option Key))
    (ku : Bool) :
    BucketInv (fun p _ => ∃ kg0 ∈ m, p ∈ kg0.2) (groupBy m (groupify f) ku) :=
  BucketInv_imp (fun _ _ hq => hq.1) (groupBy_groupify_inv m f ku)

theorem groupBy_content_sub (m : BucketMap) (fs : FS) (ku : Bool) :
    BucketInv (fun p _ => ∃ kg0 ∈ m, p ∈ kg0.2) (groupBy m (groupByContent fs) ku) := by
  apply groupBy_inv
  intro kg hkg
  exact BucketInv_imp (fun p k hq => ⟨kg, hkg, hq.1⟩) (groupByContent_mem fs kg.2)

/-! ### The fallible layer agrees with the total pipeline when no read fails -/

theorem readErrAt_none_of_noReadErr {fs : FS} (hnr : NoReadErr fs) (p : String) :
    fs.readErrAt p = none := by
  unfold FS.readErrAt
  cases hfind : fs.lookup p with
  | none => rfl
  | some fi =>
    unfold FS.lookup at hfind
    rcases Option.map_eq_some'.mp hfind with ⟨e, he, hev⟩
    have hmem : e ∈ fs.files := List.mem_of_find?_eq_some he
    rw [← hev]
    exact hnr e hmem

theorem hashClassifierE_eq_of_noReadErr {fs : FS} (hnr : NoReadErr fs) (limit : Nat)
    (p : String) : hashClassifierE fs limit p = hashClassifier fs limit p := by
  cases hop : fs.openPath p with
  | error e => simp [hashClassifierE, hashClassifier, hop]
  | ok bytes => simp [hashClassifierE, hashClassifier, hop, readErrAt_none_of_noReadErr hnr]

theorem readChunkE_eq_of_noReadErr {fs : FS} (hnr : NoReadErr fs) (cs : Nat) (h : Handle) :
    readChunkE fs cs h = Except.ok (readChunk cs h) := by
  unfold readChunkE
  rw [readErrAt_none_of_noReadErr hnr]

theorem readAllE_eq_of_noReadErr {fs : FS} (hnr : NoReadErr fs) (cs : Nat) :
    ∀ l : List Handle, readAllE fs cs l = Except.ok (l.map (readChunk cs)) := by
  intro l
  induction l with
  | nil => rfl
  | cons h tl ih =>
    show (match readChunkE fs cs h with
      | Except.error e => Except.error e
      | Except.ok h2 =>
        match readAllE fs cs tl with
        | Except.error e => Except.error e
        | Except.ok tl2 => Except.ok (h2 :: tl2)) = Except.ok ((h :: tl).map (readChunk cs))
    rw [readChunkE_eq_of_noReadErr hnr, ih]
    rfl

theorem compareChunksE_eq_of_noReadErr {fs : FS} (hnr : NoReadErr fs)
    (handles : List Handle) (cs : Nat) :
    compareChunksE fs handles cs = Except.ok (compareChunks handles cs) := by
  unfold compareChunksE compareChunks
  rw [readAllE_eq_of_noReadErr hnr]

theorem cmpLoopE_eq_of_noReadErr {fs : FS} (hnr : NoReadErr fs) :
    ∀ (fuel : Nat) (queue : List (List Handle)) (results : List (List String)),
      cmpLoopE fs fuel queue results = Except.ok (cmpLoop fuel queue results) := by
  intro fuel
  induction fuel with
  | zero =>
    intro queue results
    match queue with
    | [] => rfl
    | g :: qs => rfl
  | succ n ih =>
    intro queue results
    match queue with
    | [] => rfl
    | g :: qs =>
      show (match compareChunksE fs g CHUNK_SIZE with
        | Except.error e => Except.error e
        | Except.ok md => cmpLoopE fs n (qs ++ md.1) (results ++ md.2)) =
        Except.ok (cmpLoop (n + 1) (g :: qs) results)
      rw [compareChunksE_eq_of_noReadErr hnr]
      exact ih _ _

theorem groupByContentE_eq_of_noReadErr {fs : FS} (hnr : NoReadErr fs) (paths : List String) :
    groupByContentE fs paths = Except.ok (groupByContent fs paths) := by
  unfold groupByContentE groupByContent contentResults
  rw [cmpLoopE_eq_of_noReadErr hnr]

theorem groupByEFold_ok (clE : List String → Except Unit BucketMap)
    (cl : List String → BucketMap) (hcl : ∀ ps, clE ps = Except.ok (cl ps)) :
    ∀ (l : List (Key × List String)) (acc : BucketMap),
      groupByEFold clE l acc = Except.ok (l.foldl
        (fun acc kg => (cl kg.2).foldl (fun a kg2 => dictUpdate a kg2.1 kg2.2) acc) acc) := by
  intro l
  induction l with
  | nil => intro acc; rfl
  | cons kg tl ih =>
    intro acc
    show (match clE kg.2 with
      | Except.error e => Except.error e
      | Except.ok outs =>
        groupByEFold clE tl (outs.foldl (fun a kg2 => dictUpdate a kg2.1 kg2.2) acc)) =
      Except.ok ((kg :: tl).foldl
        (fun acc kg => (cl kg.2).foldl (fun a kg2 => dictUpdate a kg2.1 kg2.2) acc) acc)
    rw [hcl kg.2, List.foldl_cons]
    exact ih _

theorem groupByE_eq (clE : List String → Except Unit BucketMap)
    (cl : List String → BucketMap) (hcl : ∀ ps, clE ps = Except.ok (cl ps))
    (m : BucketMap) (ku : Bool) : groupByE m clE ku = Except.ok (groupBy m cl ku) := by
  unfold groupByE groupBy
  rw [groupByEFold_ok clE cl hcl m []]

/-- On a filesystem with no mid-read failures the fallible pipeline agrees
with the total one: the total `find_dupes` is exactly the no-read-error
semantics of the program. -/
theorem find_dupesE_eq_of_noReadErr (fs : FS) (hnr : NoReadErr fs) (paths : List String)
    (exact : Bool) (min_size : Nat) :
    find_dupesE fs paths exact min_size = Except.ok (find_dupes fs paths exact min_size) := by
  have hhc : hashClassifierE fs HEAD_SIZE = hashClassifier fs HEAD_SIZE :=
    funext (fun p => hashClassifierE_eq_of_noReadErr hnr HEAD_SIZE p)
  unfold find_dupesE
  rw [hhc, groupByE_eq _ (groupify (sizeClassifier fs min_size)) (fun _ => rfl)]
  show (match groupByE (stage2 fs min_size paths)
      (fun ps => Except.ok (groupify (hashClassifier fs HEAD_SIZE) ps)) false with
    | Except.error e => Except.error e
    | Except.ok m3 =>
      if exact then groupByE m3 (groupByContentE fs) false
      else groupByE m3 (fun ps => Except.ok (groupify (hashClassifier fs HEAD_SIZE) ps)) false) =
    Except.ok (find_dupes fs paths exact min_size)
  rw [groupByE_eq _ (groupify (hashClassifier fs HEAD_SIZE)) (fun _ => rfl)]
  show (if exact then groupByE (stage3 fs min_size paths) (groupByContentE fs) false
    else groupByE (stage3 fs min_size paths)
      (fun ps => Except.ok (groupify (hashClassifier fs HEAD_SIZE) ps)) false) =
    Except.ok (find_dupes fs paths exact min_size)
  cases exact with
  | true =>
    simp only [if_true]
    rw [groupByE_eq _ (groupByContent fs) (fun ps => groupByContentE_eq_of_noReadErr hnr ps)]
    rfl
  | false =>
    simp only [Bool.false_eq_true, if_false]
    rw [groupByE_eq _ (groupify (hashClassifier fs HEAD_SIZE)) (fun _ => rfl)]
    rfl

/-! ### Concrete evaluations -/

theorem zeros_length : zeros.length = HEAD_SIZE := by
  unfold zeros
  rw [List.length_replicate]

theorem hashFile_zeros (t : List Nat) : hashFile (zeros ++ t) HEAD_SIZE CHUNK_SIZE = zeros := by
  unfold zeros
  exact hashFile_header_zeros t

theorem sc_f1 : sizeClassifier fsBug 0 "f1" = Except.ok (some (Key.size (HEAD_SIZE + 1))) := by
  simp [sizeClassifier, FS.statPath, FS.lookup, fsBug, okFile, zeros_length]

theorem sc_f2 : sizeClassifier fsBug 0 "f2" = Except.ok (some (Key.size (HEAD_SIZE + 1))) := by
  simp [sizeClassifier, FS.statPath, FS.lookup, fsBug, okFile, zeros_length]

theorem hc_f1 : hashClassifier fsBug HEAD_SIZE "f1" = Except.ok (some (Key.hash zeros)) := by
  simp [hashClassifier, FS.openPath, FS.lookup, fsBug, okFile, hashFile_zeros]

theorem hc_f2 : hashClassifier fsBug HEAD_SIZE "f2" = Except.ok (some (Key.hash zeros)) := by
  simp [hashClassifier, FS.openPath, FS.lookup, fsBug, okFile, hashFile_zeros]

theorem stage2_fsBug :
    stage2 fsBug 0 ["f1", "f2"] = [(Key.size (HEAD_SIZE + 1), ["f1", "f2"])] := by
  simp [stage2, stage1, groupBy, groupify, groupifyStep, sc_f1, sc_f2,
    dictAdd, dictUpdate, addPath, setUpdate]

theorem stage3_fsBug : stage3 fsBug 0 ["f1", "f2"] = [(Key.hash zeros, ["f1", "f2"])] := by
  rw [stage3, stage2_fsBug]
  simp [groupBy, groupify, groupifyStep, hc_f1, hc_f2,
    dictAdd, dictUpdate, addPath, setUpdate]

/-- In hash mode the final stage hashes with the Python default
`limit=HEAD_SIZE` again, so the two files stay in one reported group. -/
theorem find_dupes_fsBug :
    find_dupes fsBug ["f1", "f2"] false 0 = [(Key.hash zeros, ["f1", "f2"])] := by
  rw [find_dupes, stage4]
  simp only [Bool.false_eq_true, if_false]
  rw [stage3_fsBug]
  simp [groupBy, groupify, groupifyStep, hc_f1, hc_f2,
    dictAdd, dictUpdate, addPath, setUpdate]

theorem sc4_a : sizeClassifier fs4 0 "a" = Except.ok (some (Key.size (HEAD_SIZE + 1))) := by
  simp [sizeClassifier, FS.statPath, FS.lookup, fs4, okFile, zeros_length]

theorem sc4_b : sizeClassifier fs4 0 "b" = Except.ok (some (Key.size (HEAD_SIZE + 1))) := by
  simp [sizeClassifier, FS.statPath, FS.lookup, fs4, okFile, zeros_length]

theorem sc4_c : sizeClassifier fs4 0 "c" = Except.ok (some (Key.size (HEAD_SIZE + 2))) := by
  simp [sizeClassifier, FS.statPath, FS.lookup, fs4, okFile, zeros_length]

theorem sc4_d : sizeClassifier fs4 0 "d" = Except.ok (some (Key.size (HEAD_SIZE + 2))) := by
  simp [sizeClassifier, FS.statPath, FS.lookup, fs4, okFile, zeros_length]

theorem hc4_a : hashClassifier fs4 HEAD_SIZE "a" = Except.ok (some (Key.hash zeros)) := by
  simp [hashClassifier, FS.openPath, FS.lookup, fs4, okFile, hashFile_zeros]

theorem hc4_b : hashClassifier fs4 HEAD_SIZE "b" = Except.ok (some (Key.hash zeros)) := by
  simp [hashClassifier, FS.openPath, FS.lookup, fs4, okFile, hashFile_zeros]

theorem hc4_c : hashClassifier fs4 HEAD_SIZE "c" = Except.ok (some (Key.hash zeros)) := by
  simp [hashClassifier, FS.openPath, FS.lookup, fs4, okFile, hashFile_zeros]

theorem hc4_d : hashClassifier fs4 HEAD_SIZE "d" = Except.ok (some (Key.hash zeros)) := by
  simp [hashClassifier, FS.openPath, FS.lookup, fs4, okFile, hashFile_zeros]

/-- The size stage puts `a`, `b` and `c`, `d` into two distinct buckets. -/
theorem stage2_fs4 : stage2 fs4 0 ["a", "b", "c", "d"] =
    [(Key.size (HEAD_SIZE + 1), ["a", "b"]), (Key.size (HEAD_SIZE + 2), ["c", "d"])] := by
  simp [stage2, stage1, groupBy, groupify, groupifyStep, sc4_a, sc4_b, sc4_c, sc4_d,
    dictAdd, dictUpdate, addPath, setUpdate]

/-- The header-hash stage merges the two size buckets into one, because the
digest key is the same for all four files. -/
theorem stage3_fs4 : stage3 fs4 0 ["a", "b", "c", "d"] =
    [(Key.hash zeros, ["a", "b", "c", "d"])] := by
  rw [stage3, stage2_fs4]
  simp [groupBy, groupify, groupifyStep, hc4_a, hc4_b, hc4_c, hc4_d,
    dictAdd, dictUpdate, addPath, setUpdate]

theorem scE_a : sizeClassifier fsEmpty 0 "a" = Except.ok (some (Key.size 0)) := by
  simp [sizeClassifier, FS.statPath, FS.lookup, fsEmpty, okFile]

theorem scE_b : sizeClassifier fsEmpty 0 "b" = Except.ok (some (Key.size 0)) := by
  simp [sizeClassifier, FS.statPath, FS.lookup, fsEmpty, okFile]

theorem hcE_a : hashClassifier fsEmpty HEAD_SIZE "a" = Except.ok (some (Key.hash [])) := by
  simp [hashClassifier, FS.openPath, FS.lookup, fsEmpty, okFile, hashFile_nil]

theorem hcE_b : hashClassifier fsEmpty HEAD_SIZE "b" = Except.ok (some (Key.hash [])) := by
  simp [hashClassifier, FS.openPath, FS.lookup, fsEmpty, okFile, hashFile_nil]

theorem stage2_fsEmpty : stage2 fsEmpty 0 ["a", "b"] = [(Key.size 0, ["a", "b"])] := by
  simp [stage2, stage1, groupBy, groupify, groupifyStep, scE_a, scE_b,
    dictAdd, dictUpdate, addPath, setUpdate]

theorem stage3_fsEmpty : stage3 fsEmpty 0 ["a", "b"] = [(Key.hash [], ["a", "b"])] := by
  rw [stage3, stage2_fsEmpty]
  simp [groupBy, groupify, groupifyStep, hcE_a, hcE_b,
    dictAdd, dictUpdate, addPath, setUpdate]

/-- With `find_dupes`'s own default `min_size = 0`, a pair of empty files is
reported as one duplicate group. -/
theorem find_dupes_fsEmpty :
    find_dupes fsEmpty ["a", "b"] false 0 = [(Key.hash [], ["a", "b"])] := by
  rw [find_dupes, stage4]
  simp only [Bool.false_eq_true, if_false]
  rw [stage3_fsEmpty]
  simp [groupBy, groupify, groupifyStep, hcE_a, hcE_b,
    dictAdd, dictUpdate, addPath, setUpdate]

theorem scE25_a : sizeClassifier fsEmpty DEFAULTS_min_size "a" = Except.ok none := by
  simp [sizeClassifier, FS.statPath, FS.lookup, fsEmpty, okFile, DEFAULTS_min_size]

theorem scE25_b : sizeClassifier fsEmpty DEFAULTS_min_size "b" = Except.ok none := by
  simp [sizeClassifier, FS.statPath, FS.lookup, fsEmpty, okFile, DEFAULTS_min_size]

/-- With the `DEFAULTS` minimum size (25, the CLI default), the two empty
files are excluded and nothing is reported. -/
theorem find_dupes_fsEmpty_25 :
    find_dupes fsEmpty ["a", "b"] false DEFAULTS_min_size = [] := by
  rw [find_dupes, stage4]
  simp only [Bool.false_eq_true, if_false]
  rw [stage3]
  have h2 : stage2 fsEmpty DEFAULTS_min_size ["a", "b"] = [] := by
    simp [stage2, stage1, groupBy, groupify, groupifyStep, scE25_a, scE25_b]
  rw [h2]
  simp [groupBy]

theorem scR_p : sizeClassifier fsReadErr 0 "p" = Except.ok (some (Key.size (HEAD_SIZE + 1))) := by
  simp [sizeClassifier, FS.statPath, FS.lookup, fsReadErr, zeros_length]

theorem scR_q : sizeClassifier fsReadErr 0 "q" = Except.ok (some (Key.size (HEAD_SIZE + 1))) := by
  simp [sizeClassifier, FS.statPath, FS.lookup, fsReadErr, zeros_length]

/-- The header hash of `p` succeeds: its reads touch only the first
`HEAD_SIZE` bytes, short of the bad region at index `HEAD_SIZE`. -/
theorem hcR_p : hashClassifierE fsReadErr HEAD_SIZE "p" = Except.ok (some (Key.hash zeros)) := by
  have h1 : FS.openPath fsReadErr "p" = Except.ok (zeros ++ [1]) := by
    simp [FS.openPath, FS.lookup, fsReadErr]
  have h2 : FS.readErrAt fsReadErr "p" = some HEAD_SIZE := by
    simp [FS.readErrAt, FS.lookup, fsReadErr]
  have h3 : hashTouched (zeros ++ [1]).length HEAD_SIZE = HEAD_SIZE := by
    have hlen : (zeros ++ [1]).length = HEAD_SIZE + 1 := by simp [zeros_length]
    rw [hlen]
    decide
  simp only [hashClassifierE, h1, h2, h3]
  rw [if_neg (by decide)]
  rw [hashFile_zeros]

theorem hcR_q : hashClassifierE fsReadErr HEAD_SIZE "q" = Except.ok (some (Key.hash zeros)) := by
  simp [hashClassifierE, FS.openPath, FS.readErrAt, FS.lookup, fsReadErr, hashFile_zeros]

theorem sizeStageE_fsReadErr : groupByE (stage1 ["p", "q"])
    (fun ps => Except.ok (groupify (sizeClassifier fsReadErr 0) ps)) false =
    Except.ok [(Key.size (HEAD_SIZE + 1), ["p", "q"])] := by
  rw [groupByE_eq _ (groupify (sizeClassifier fsReadErr 0)) (fun _ => rfl)]
  have h : groupBy (stage1 ["p", "q"]) (groupify (sizeClassifier fsReadErr 0)) false =
      [(Key.size (HEAD_SIZE + 1), ["p", "q"])] := by
    simp [stage1, groupBy, groupify, groupifyStep, scR_p, scR_q,
      dictAdd, dictUpdate, addPath, setUpdate]
  rw [h]

theorem hashStageE_fsReadErr : groupByE [(Key.size (HEAD_SIZE + 1), ["p", "q"])]
    (fun ps => Except.ok (groupify (hashClassifierE fsReadErr HEAD_SIZE) ps)) false =
    Except.ok [(Key.hash zeros, ["p", "q"])] := by
  rw [groupByE_eq _ (groupify (hashClassifierE fsReadErr HEAD_SIZE)) (fun _ => rfl)]
  have h : groupBy [(Key.size (HEAD_SIZE + 1), ["p", "q"])]
      (groupify (hashClassifierE fsReadErr HEAD_SIZE)) false =
      [(Key.hash zeros, ["p", "q"])] := by
    simp [groupBy, groupify, groupifyStep, hcR_p, hcR_q,
      dictAdd, dictUpdate, addPath, setUpdate]
  rw [h]

theorem hashStageE_fsReadErr_final : groupByE [(Key.hash zeros, ["p", "q"])]
    (fun ps => Except.ok (groupify (hashClassifierE fsReadErr HEAD_SIZE) ps)) false =
    Except.ok [(Key.hash zeros, ["p", "q"])] := by
  rw [groupByE_eq _ (groupify (hashClassifierE fsReadErr HEAD_SIZE)) (fun _ => rfl)]
  have h : groupBy [(Key.hash zeros, ["p", "q"])]
      (groupify (hashClassifierE fsReadErr HEAD_SIZE)) false =
      [(Key.hash zeros, ["p", "q"])] := by
    simp [groupBy, groupify, groupifyStep, hcR_p, hcR_q,
      dictAdd, dictUpdate, addPath, setUpdate]
  rw [h]

/-- A first read of `CHUNK_SIZE` bytes on a freshly opened handle raises
when the bad region lies inside the bytes it would deliver. -/
theorem readChunkE_fresh_error (fs : FS) (p : String) (bs : List Nat) (k : Nat)
    (hlk : fs.lookup p = some ⟨bs, false, true, true, some k⟩)
    (hk : k < min CHUNK_SIZE bs.length) :
    readChunkE fs CHUNK_SIZE ⟨p, bs, []⟩ = Except.error () := by
  unfold readChunkE FS.readErrAt
  dsimp only
  rw [hlk]
  dsimp only [Option.map_some', Option.getD_some]
  rw [if_pos (by omega)]

theorem readChunkE_fsReadErr_p :
    readChunkE fsReadErr CHUNK_SIZE ⟨"p", zeros ++ [1], []⟩ = Except.error () := by
  apply readChunkE_fresh_error fsReadErr "p" (zeros ++ [1]) HEAD_SIZE
  · simp [FS.lookup, fsReadErr]
  · have hlen : (zeros ++ [1]).length = HEAD_SIZE + 1 := by simp [zeros_length]
    rw [hlen]
    decide

theorem compareChunksE_fsReadErr : compareChunksE fsReadErr
    [⟨"p", zeros ++ [1], []⟩, ⟨"q", zeros ++ [1], []⟩] CHUNK_SIZE = Except.error () := by
  unfold compareChunksE readAllE
  rw [readChunkE_fsReadErr_p]

theorem openHandles_fsReadErr : openHandles fsReadErr ["p", "q"] =
    [⟨"p", zeros ++ [1], []⟩, ⟨"q", zeros ++ [1], []⟩] := by
  simp [openHandles, FS.openPath, FS.lookup, fsReadErr,
    List.filterMap_cons, List.filterMap_nil]

/-- If the front group's reads raise, the comparison loop propagates the
error (whatever positive fuel it has). -/
theorem cmpLoopE_error_head (fs : FS) (g : List Handle) (qs : List (List Handle))
    (res : List (List String)) (fuel : Nat) (hfuel : 0 < fuel)
    (herr : compareChunksE fs g CHUNK_SIZE = Except.error ()) :
    cmpLoopE fs fuel (g :: qs) res = Except.error () := by
  match fuel with
  | 0 => omega
  | n + 1 =>
    show (match compareChunksE fs g CHUNK_SIZE with
      | Except.error e => Except.error e
      | Except.ok md => cmpLoopE fs n (qs ++ md.1) (res ++ md.2)) = Except.error ()
    rw [herr]

theorem queueMeasure_single_pos (g : List Handle) : 0 < queueMeasure [g] := by
  simp [queueMeasure, groupMeasure]

theorem groupByContentE_fsReadErr : groupByContentE fsReadErr ["p", "q"] = Except.error () := by
  unfold groupByContentE
  rw [openHandles_fsReadErr]
  rw [cmpLoopE_error_head fsReadErr _ _ _ _ (queueMeasure_single_pos _) compareChunksE_fsReadErr]

/-- Exact mode on `fsReadErr` aborts: the uncaught read error propagates out
of `compareChunks` through `groupByContent` and `groupBy`. -/
theorem find_dupesE_fsReadErr : find_dupesE fsReadErr ["p", "q"] true 0 = Except.error () := by
  unfold find_dupesE
  rw [sizeStageE_fsReadErr]
  dsimp only
  rw [hashStageE_fsReadErr]
  dsimp only
  rw [if_pos rfl]
  show groupByE [(Key.hash zeros, ["p", "q"])] (groupByContentE fsReadErr) false =
    Except.error ()
  unfold groupByE groupByEFold
  rw [groupByContentE_fsReadErr]

/-- Hash mode on the same filesystem completes (the limited hash never
touches the bad byte), reporting the pair. -/
theorem find_dupesE_fsReadErr_hash :
    find_dupesE fsReadErr ["p", "q"] false 0 = Except.ok [(Key.hash zeros, ["p", "q"])] := by
  unfold find_dupesE
  rw [sizeStageE_fsReadErr]
  dsimp only
  rw [hashStageE_fsReadErr]
  dsimp only
  rw [if_neg (by simp)]
  exact hashStageE_fsReadErr_final

/-! ### Claims -/

/-- C1: the claim says every hash-mode output group has members with equal
header hash and equal full-file digest.  The code violates it: the final
stage calls `hashClassifier` without a `limit`, so Python's default
`limit=HEAD_SIZE` applies and `find_dupes` groups `f1` and `f2` even though
their full-content digests differ (their contents differ in the last byte).
This theorem evaluates the code at the failing input. -/
theorem c1_hash_mode_groups_digest_mismatch :
    find_dupes fsBug ["f1", "f2"] false 0 = [(Key.hash zeros, ["f1", "f2"])] ∧
    FS.openPath fsBug "f1" = Except.ok (zeros ++ [1]) ∧
    FS.openPath fsBug "f2" = Except.ok (zeros ++ [2]) ∧
    hashFile (zeros ++ [1]) 0 CHUNK_SIZE ≠ hashFile (zeros ++ [2]) 0 CHUNK_SIZE := by
  refine ⟨find_dupes_fsBug, ?_, ?_, ?_⟩
  · simp [FS.openPath, FS.lookup, fsBug, okFile]
  · simp [FS.openPath, FS.lookup, fsBug, okFile]
  · rw [hashFile_no_limit _ _ (by decide), hashFile_no_limit _ _ (by decide)]
    simp

/-- C2 counterexample: the header-hash stage is NOT strictly refining — it
merges the two distinct size buckets of `fs4` into a single bucket, because
all four files share a header and the digest key does not encode the size. -/
theorem c2_header_hash_merges_size_buckets :
    ¬ refines (stage3 fs4 0 ["a", "b", "c", "d"]) (stage2 fs4 0 ["a", "b", "c", "d"]) := by
  rw [stage3_fs4, stage2_fs4]
  intro h
  rcases h (Key.hash zeros, ["a", "b", "c", "d"]) (by simp) with ⟨kg0, hkg0, hsub⟩
  have hcases : kg0 = (Key.size (HEAD_SIZE + 1), ["a", "b"]) ∨
      kg0 = (Key.size (HEAD_SIZE + 2), ["c", "d"]) := by simpa using hkg0
  rcases hcases with h1 | h2
  · have hc := hsub "c" (by simp)
    rw [h1] at hc
    simp at hc
  · have ha := hsub "a" (by simp)
    rw [h2] at ha
    simp at ha

/-- C2 amended: every group produced by a stage contains only paths drawn
from the previous stage's groups (no stage invents paths); merging of two
previous buckets with equal classifier keys, however, can occur. -/
theorem c2_stages_subset_of_previous (fs : FS) (min_size : Nat) (paths : List String)
    (exact : Bool) :
    (∀ kg ∈ stage2 fs min_size paths, ∀ p ∈ kg.2, ∃ kg0 ∈ stage1 paths, p ∈ kg0.2) ∧
    (∀ kg ∈ stage3 fs min_size paths, ∀ p ∈ kg.2,
      ∃ kg0 ∈ stage2 fs min_size paths, p ∈ kg0.2) ∧
    (∀ kg ∈ stage4 fs exact min_size paths, ∀ p ∈ kg.2,
      ∃ kg0 ∈ stage3 fs min_size paths, p ∈ kg0.2) := by
  refine ⟨?_, ?_, ?_⟩
  · exact fun kg hkg p hp =>
      groupBy_groupify_sub (stage1 paths) (sizeClassifier fs min_size) false kg hkg p hp
  · exact fun kg hkg p hp =>
      groupBy_groupify_sub (stage2 fs min_size paths) (hashClassifier fs HEAD_SIZE) false
        kg hkg p hp
  · cases exact with
    | true =>
      exact fun kg hkg p hp =>
        groupBy_content_sub (stage3 fs min_size paths) fs false kg hkg p hp
    | false =>
      exact fun kg hkg p hp =>
        groupBy_groupify_sub (stage3 fs min_size paths) (hashClassifier fs HEAD_SIZE) false
          kg hkg p hp

theorem c2_stages_subset_of_previous_witness :
    ∃ kg0 ∈ stage2 fs4 0 ["a", "b", "c", "d"], "a" ∈ kg0.2 :=
  (c2_stages_subset_of_previous fs4 0 ["a", "b", "c", "d"] false).2.1
    (Key.hash zeros, ["a", "b", "c", "d"]) (by rw [stage3_fs4]; simp) "a" (by simp)

/-- C3 counterexample: `find_dupes`'s own default is `min_size = 0` (the
`DEFAULTS` value 25 is applied only by the CLI), so with default arguments
two files of size 0 ARE reported as one duplicate group. -/
theorem c3_empty_files_reported_by_default :
    find_dupes fsEmpty ["a", "b"] false 0 = [(Key.hash [], ["a", "b"])] ∧
    FS.statPath fsEmpty "a" = Except.ok (false, 0) ∧
    FS.statPath fsEmpty "b" = Except.ok (false, 0) :=
  ⟨find_dupes_fsEmpty, rfl, rfl⟩

/-- C3 amended: when `min_size` is the `DEFAULTS` value 25 (as passed by the
CLI), a file of size 0 is excluded by the size classifier and never appears
in any output group, in either mode. -/
theorem c3_min_size_pos_excludes_empty (fs : FS) (paths : List String) (exact : Bool)
    (p : String) (il : Bool) (h0 : fs.statPath p = Except.ok (il, 0)) :
    ∀ kg ∈ find_dupes fs paths exact DEFAULTS_min_size, p ∉ kg.2 := by
  intro kg hkg hp
  have h4 : ∃ kg0 ∈ stage3 fs DEFAULTS_min_size paths, p ∈ kg0.2 := by
    cases exact with
    | true => exact groupBy_content_sub (stage3 fs DEFAULTS_min_size paths) fs false kg hkg p hp
    | false =>
      exact groupBy_groupify_sub (stage3 fs DEFAULTS_min_size paths)
        (hashClassifier fs HEAD_SIZE) false kg hkg p hp
  rcases h4 with ⟨kg3, hkg3, hp3⟩
  have h3 : ∃ kg0 ∈ stage2 fs DEFAULTS_min_size paths, p ∈ kg0.2 :=
    groupBy_groupify_sub (stage2 fs DEFAULTS_min_size paths) (hashClassifier fs HEAD_SIZE)
      false kg3 hkg3 p hp3
  rcases h3 with ⟨kg2, hkg2, hp2⟩
  have h2 := (groupBy_groupify_inv (stage1 paths) (sizeClassifier fs DEFAULTS_min_size)
    false kg2 hkg2 p hp2).2
  have hsz : sizeClassifier fs DEFAULTS_min_size p = Except.ok none := by
    unfold sizeClassifier
    rw [h0]
    cases il with
    | true => simp
    | false => simp [DEFAULTS_min_size]
  rw [hsz] at h2
  simp at h2

theorem c3_min_size_pos_excludes_empty_witness :
    FS.statPath fsEmpty "a" = Except.ok (false, 0) ∧
    ∀ kg ∈ find_dupes fsEmpty ["a", "b"] false DEFAULTS_min_size, "a" ∉ kg.2 :=
  ⟨rfl, c3_min_size_pos_excludes_empty fsEmpty ["a", "b"] false "a" false rfl⟩

/-- C4: after reading one chunk from every handle, a partition is emitted as
finished exactly when it is a singleton or its members' just-read chunk is
empty; every carried-forward partition has at least two members, all with
non-empty chunks.  `compareChunks` returns the carried partitions as handle
lists and the finished partitions as their path lists; an empty chunk means
the handle's file is exhausted (end of file). -/
theorem c4_partition_finished_iff (handles : List Handle) (cs : Nat) (hcs : 0 < cs) :
    (∀ d ∈ (partitionChunks (handles.map (readChunk cs))).2,
        d ≠ [] ∧ (d.length = 1 ∨ ∀ h ∈ d, h.chunk = [])) ∧
    (∀ m ∈ (partitionChunks (handles.map (readChunk cs))).1,
        2 ≤ m.length ∧ ∀ h ∈ m, h.chunk ≠ []) ∧
    (compareChunks handles cs).1 = (partitionChunks (handles.map (readChunk cs))).1 ∧
    (compareChunks handles cs).2 =
      (partitionChunks (handles.map (readChunk cs))).2.map (fun g => g.map Handle.path) ∧
    (∀ h ∈ handles.map (readChunk cs), h.chunk = [] → h.rest = []) := by
  have hs := partitionChunks_shape (handles.map (readChunk cs)).length _ (Nat.le_refl _)
  refine ⟨hs.2, hs.1, rfl, rfl, ?_⟩
  intro h hh hchunk
  rcases List.mem_map.mp hh with ⟨h0, _, he⟩
  subst he
  have hres := List.take_eq_nil_iff.mp hchunk
  rcases hres with h1 | h2
  · exact absurd h1 (by omega)
  · show h0.rest.drop cs = []
    rw [h2]
    simp

theorem c4_partition_finished_iff_witness :
    (0:Nat) < 1 ∧
    ∀ d ∈ (partitionChunks (([⟨"u", [1], []⟩, ⟨"v", [2], []⟩] : List Handle).map
        (readChunk 1))).2,
      d ≠ [] ∧ (d.length = 1 ∨ ∀ h ∈ d, h.chunk = []) :=
  ⟨by decide, (c4_partition_finished_iff [⟨"u", [1], []⟩, ⟨"v", [2], []⟩] 1 (by decide)).1⟩

/-- C5: with a positive limit, `hashFile` consumes exactly the file's first
`chunkRound limit cs` bytes (`cs = min chunk_size limit`), the limit rounded
up to a whole effective chunk; the byte count hashed is therefore at most
`min (file size) (rounded limit)`, and reading stops early even if data
remains.  With no limit (0/None), every byte of the file is hashed.  (The
digest itself is the external `hashlib.sha1`, 160 bits, modelled here as an
injective function of the consumed bytes.) -/
theorem c5_hashFile_limit_consumption (file : List Nat) (limit : Nat) (hl : 0 < limit) :
    hashFile file limit CHUNK_SIZE =
      file.take (chunkRound limit (min CHUNK_SIZE limit)) ∧
    limit ≤ chunkRound limit (min CHUNK_SIZE limit) ∧
    chunkRound limit (min CHUNK_SIZE limit) < limit + min CHUNK_SIZE limit ∧
    (hashFile file limit CHUNK_SIZE).length ≤
      min file.length (chunkRound limit (min CHUNK_SIZE limit)) ∧
    hashFile file 0 CHUNK_SIZE = file := by
  have hmin : 0 < min CHUNK_SIZE limit := lt_min (by decide) hl
  have h1 := hashFile_of_pos_limit file limit CHUNK_SIZE hl (by decide)
  refine ⟨h1, chunkRound_ge _ _ hmin, chunkRound_lt _ _ hmin, ?_,
    hashFile_no_limit file CHUNK_SIZE (by decide)⟩
  rw [h1]
  simp only [List.length_take]
  omega

theorem c5_hashFile_limit_consumption_witness :
    (0:Nat) < 2 ∧
    hashFile [1, 2, 3, 4, 5] 2 CHUNK_SIZE =
      List.take (chunkRound 2 (min CHUNK_SIZE 2)) [1, 2, 3, 4, 5] ∧
    hashFile [1, 2, 3] 0 CHUNK_SIZE = [1, 2, 3] := by
  have h := c5_hashFile_limit_consumption [1, 2, 3, 4, 5] 2 (by decide)
  have h2 := c5_hashFile_limit_consumption [1, 2, 3] 2 (by decide)
  exact ⟨by decide, h.1, h2.2.2.2.2⟩

/-- C6 counterexample: the claim says a stat/open/read error on one path is
never propagated and never aborts the run, but a mid-read error in exact
mode is uncaught (fastdupes.py line 408).  On `fsReadErr`, path `p` stats
fine, opens fine and its header even hashes fine — yet exact-mode
`find_dupes` aborts with the propagated read error, while hash mode (whose
limited reads never touch the bad byte) completes. -/
theorem c6_exact_read_error_aborts :
    find_dupesE fsReadErr ["p", "q"] true 0 = Except.error () ∧
    FS.openPath fsReadErr "p" = Except.ok (zeros ++ [1]) ∧
    hashClassifierE fsReadErr HEAD_SIZE "p" = Except.ok (some (Key.hash zeros)) ∧
    find_dupesE fsReadErr ["p", "q"] false 0 = Except.ok [(Key.hash zeros, ["p", "q"])] :=
  ⟨find_dupesE_fsReadErr, by simp [FS.openPath, FS.lookup, fsReadErr], hcR_p,
    find_dupesE_fsReadErr_hash⟩

/-- C6 amended: an OS/IO error raised while classifying a path — at stat
or open time, or during the reads of a hash-mode `hashFile` — is caught by
the `groupify` wrapper: that path alone is dropped from every bucket and
the grouping of all other paths is unchanged; likewise `groupByContent`
absorbs open-time errors.  On a filesystem with no mid-read failures the
whole fallible pipeline completes, agreeing with the total one.  (A read
error during exact-mode chunk comparison, by contrast, is uncaught and
aborts the run — see the counterexample.) -/
theorem c6_classification_errors_isolated (f : String → Except Unit (Option Key))
    (fs : FS) (p : String) (paths : List String) (exact : Bool) (min_size : Nat)
    (hf : f p = Except.error ()) (hfs : fs.openPath p = Except.error ())
    (hnr : NoReadErr fs) :
    groupify f paths = groupify f (paths.filter (fun q => !(decide (q = p)))) ∧
    (∀ kg ∈ groupify f paths, p ∉ kg.2) ∧
    groupByContent fs paths = groupByContent fs (paths.filter (fun q => !(decide (q = p)))) ∧
    (∀ kg ∈ groupByContent fs paths, p ∉ kg.2) ∧
    find_dupesE fs paths exact min_size = Except.ok (find_dupes fs paths exact min_size) := by
  refine ⟨groupify_error_skip f p paths hf, ?_, groupByContent_error_skip fs p paths hfs, ?_,
    find_dupesE_eq_of_noReadErr fs hnr paths exact min_size⟩
  · intro kg hkg hp
    have h := (groupify_mem f paths kg hkg p hp).2
    rw [hf] at h
    exact Except.noConfusion h
  · intro kg hkg hp
    rcases (groupByContent_mem fs paths kg hkg p hp).2 with ⟨b, hb⟩
    rw [hfs] at hb
    exact Except.noConfusion hb

theorem c6_classification_errors_isolated_witness :
    hashClassifierE fsErr HEAD_SIZE "x" = Except.error () ∧
    FS.openPath fsErr "x" = Except.error () ∧
    NoReadErr fsErr ∧
    (groupify (hashClassifierE fsErr HEAD_SIZE) ["x", "y", "z"] =
      groupify (hashClassifierE fsErr HEAD_SIZE)
        (["x", "y", "z"].filter (fun q => !(decide (q = "x")))) ∧
    (∀ kg ∈ groupify (hashClassifierE fsErr HEAD_SIZE) ["x", "y", "z"], "x" ∉ kg.2) ∧
    groupByContent fsErr ["x", "y", "z"] =
      groupByContent fsErr (["x", "y", "z"].filter (fun q => !(decide (q = "x")))) ∧
    (∀ kg ∈ groupByContent fsErr ["x", "y", "z"], "x" ∉ kg.2) ∧
    find_dupesE fsErr ["x", "y", "z"] true 0 =
      Except.ok (find_dupes fsErr ["x", "y", "z"] true 0)) :=
  ⟨rfl, rfl, by unfold NoReadErr; decide,
    c6_classification_errors_isolated (hashClassifierE fsErr HEAD_SIZE) fsErr "x"
      ["x", "y", "z"] true 0 rfl rfl (by unfold NoReadErr; decide)⟩

/-- C7: the `test_common_prefix` scenario (two same-size files with a common
prefix covering the whole header and differing tails) must yield zero
groups, but in hash mode the final stage hashes only `HEAD_SIZE` bytes
(Python default argument), so `find_dupes` returns one group instead.  This
theorem evaluates the code at the failing input. -/
theorem c7_common_prefix_returns_one_group :
    find_dupes fsBug ["f1", "f2"] false 0 ≠ [] ∧
    (find_dupes fsBug ["f1", "f2"] false 0).length = 1 := by
  constructor
  · rw [find_dupes_fsBug]
    simp
  · rw [find_dupes_fsBug]
    rfl

/-- C8: `find_dupes` is a pure function of the filesystem and its arguments,
so two runs on an unchanged file set give equal bucket maps, and hence
set-equal groups: every group of one run appears in the other with the same
key and the same member paths. -/
theorem c8_find_dupes_deterministic (fs : FS) (paths : List String) (exact : Bool)
    (min_size : Nat) :
    find_dupes fs paths exact min_size = find_dupes fs paths exact min_size ∧
    ∀ kg ∈ find_dupes fs paths exact min_size,
      ∃ kg2 ∈ find_dupes fs paths exact min_size,
        kg.1 = kg2.1 ∧ ∀ p, (p ∈ kg.2 ↔ p ∈ kg2.2) :=
  ⟨rfl, fun kg hkg => ⟨kg, hkg, rfl, fun _ => Iff.rfl⟩⟩

theorem c8_find_dupes_deterministic_witness :
    ∃ kg2 ∈ find_dupes fsEmpty ["a", "b"] false 0,
      (Key.hash ([] : List Nat), ["a", "b"]).1 = kg2.1 ∧
      ∀ p, (p ∈ (Key.hash ([] : List Nat), ["a", "b"]).2 ↔ p ∈ kg2.2) :=
  (c8_find_dupes_deterministic fsEmpty ["a", "b"] false 0).2
    (Key.hash [], ["a", "b"]) (by rw [find_dupes_fsEmpty]; simp)

/-- C9: `compareChunks` partitions its input: counting multiplicity, each
input path occurs exactly as often in the union of the carried-forward and
finished groups as in the input, no path is invented, and every returned
group is non-empty. -/
theorem c9_compareChunks_partitions_input (handles : List Handle) (cs : Nat) :
    (∀ p : String,
      ((compareChunks handles cs).1.flatten.map Handle.path ++
        (compareChunks handles cs).2.flatten).count p =
      (handles.map Handle.path).count p) ∧
    (∀ g ∈ (compareChunks handles cs).1, g ≠ []) ∧
    (∀ g ∈ (compareChunks handles cs).2, g ≠ []) := by
  have hperm := partitionChunks_perm (handles.map (readChunk cs)).length _ (Nat.le_refl _)
  have hshape := partitionChunks_shape (handles.map (readChunk cs)).length _ (Nat.le_refl _)
  have e0 : (handles.map (readChunk cs)).map Handle.path = handles.map Handle.path := by
    rw [List.map_map]
    apply List.map_congr_left
    intro a _
    rfl
  refine ⟨?_, ?_, ?_⟩
  · intro p
    show (((partitionChunks (handles.map (readChunk cs))).1.flatten.map Handle.path) ++
      ((partitionChunks (handles.map (readChunk cs))).2.map
        (fun g => g.map Handle.path)).flatten).count p =
      (handles.map Handle.path).count p
    rw [← List.map_flatten]
    have hcnt := (hperm.map Handle.path).count_eq p
    rw [List.map_append, e0] at hcnt
    exact hcnt
  · intro g hg
    have h2 := (hshape.1 g hg).1
    intro hnil
    rw [hnil] at h2
    simp at h2
  · intro g hg
    rcases List.mem_map.mp hg with ⟨dH, hdH, he⟩
    subst he
    have h2 := (hshape.2 dH hdH).1
    simpa using h2

theorem c9_compareChunks_partitions_input_witness :
    ((compareChunks ([⟨"u", [1], []⟩, ⟨"v", [2], []⟩] : List Handle) 1).1.flatten.map
        Handle.path ++
      (compareChunks ([⟨"u", [1], []⟩, ⟨"v", [2], []⟩] : List Handle) 1).2.flatten).count "u" =
    (([⟨"u", [1], []⟩, ⟨"v", [2], []⟩] : List Handle).map Handle.path).count "u" :=
  (c9_compareChunks_partitions_input [⟨"u", [1], []⟩, ⟨"v", [2], []⟩] 1).1 "u"

/-- C10: the chunk-comparison loop of `groupByContent` terminates on every
finite input: the queue measure strictly decreases each round, so the fuel
`queueMeasure queue` always suffices and in particular the exact call made
by `groupByContent` completes. -/
theorem c10_content_loop_terminates :
    (∀ (fuel : Nat) (queue : List (List Handle)) (results : List (List String)),
      queueMeasure queue ≤ fuel → (cmpLoop fuel queue results).isSome) ∧
    ∀ (fs : FS) (paths : List String),
      (cmpLoop (queueMeasure [openHandles fs paths]) [openHandles fs paths] []).isSome :=
  ⟨cmpLoop_isSome_of_fuel, fun _ _ => cmpLoop_isSome_of_fuel _ _ _ (Nat.le_refl _)⟩

theorem c10_content_loop_terminates_witness :
    (cmpLoop (queueMeasure [openHandles fsEmpty ["a", "b"]])
      [openHandles fsEmpty ["a", "b"]] []).isSome :=
  c10_content_loop_terminates.2 fsEmpty ["a", "b"]

end Fastdupes
